import Mathlib

/-!
Shallow embedding of the CNS Orchestrator reconciliation engine
(`index.js`) and proofs about it.

The store cache is a JavaScript object mapping slash-delimited string keys
to string values; it is modelled as an association list in insertion
order (`Cache`).  A cache read `cache[k]` yields the stored string or
JavaScript `undefined`; it is modelled as `Option String`, with `none`
standing for `undefined`.  Where the source concatenates a possibly
undefined value into a string, JavaScript stringifies `undefined` as
`"undefined"`; `jstr` models that coercion.

The wildcard matcher of the source builds the regular expression
`'^' + filter.split('*').map(esc).join('.*') + '$'` with the `i` flag and
all metacharacters escaped, so a filter segment matches a key segment
exactly when the text is the filter's literal chunks in order,
case-insensitively, with arbitrary characters between chunks except that
JavaScript's `.` does not match the line terminators U+000A, U+000D,
U+2028, U+2029.  `jsmatch` implements exactly that semantics by
backtracking over the literal chunks.

Store writes are modelled as the list of `put` key/value pairs an engine
pass issues, in order; `short.generate()` is modelled by an oracle
`gen : Nat → String` supplying the successive generated connection ids.
-/

namespace CNSOrch

/-! ### Strings, key segmentation, and the wildcard matcher -/

/-- The line terminators of JavaScript regular expressions: characters
that `.` does not match. -/
def lineTerm (c : Char) : Bool :=
  c = '\n' || c = '\r' || c = ' ' || c = ' '

/-- Case folding used to model the regular expression `i` flag. -/
def fold (c : Char) : Char := c.toLower

/-- JavaScript `String.prototype.split` with a one-character separator:
always returns at least one (possibly empty) piece. -/
def splitChars (sep : Char) : List Char → List (List Char)
  | [] => [[]]
  | c :: cs =>
    match splitChars sep cs with
    | [] => [[]]
    | seg :: rest => if c = sep then [] :: seg :: rest else (c :: seg) :: rest

/-- `key.split('/')` of the source. -/
def splitKey (s : String) : List String :=
  (splitChars '/' s.data).map String.mk

/-- `parts.join('/')` of the source. -/
def joinKey : List String → String
  | [] => ""
  | [s] => s
  | s :: rest => s ++ "/" ++ joinKey rest

/-- JavaScript coercion of a string-or-undefined value to a string. -/
def jstr : Option String → String
  | some s => s
  | none => "undefined"

/-- Strip a literal chunk from the front of the text, comparing
case-folded characters; returns the remaining text on success. -/
def stripFold : List Char → List Char → Option (List Char)
  | [], t => some t
  | _ :: _, [] => none
  | p :: ps, c :: cs => if fold p = fold c then stripFold ps cs else none

/-- Search for the next literal chunk `c`: either it matches here and
`next` accepts the remainder, or one more non-line-terminator character
is consumed by the `.*` and the search continues. -/
def seekChunk (next : List Char → Bool) (c : List Char) : List Char → Bool
  | [] =>
    (match stripFold c [] with
     | some r => next r
     | none => false)
  | x :: xs =>
    ((match stripFold c (x :: xs) with
      | some r => next r
      | none => false)
     || (!lineTerm x && seekChunk next c xs))

/-- Match the tail `.*c₁.*c₂…​.*cₙ$` of the compiled wildcard regular
expression against the text: each `.*` may consume any characters except
line terminators, and the text must end with the last chunk. -/
def wildTail : List (List Char) → List Char → Bool
  | [], t => t.isEmpty
  | c :: cs, t => seekChunk (wildTail cs) c t

/-- `match(text, filter)` of the source: test the anchored,
case-insensitive regular expression obtained by splitting the filter on
`*` and joining the escaped chunks with `.*`. -/
def jsmatch (text filt : String) : Bool :=
  match splitChars '*' filt.data with
  | [] => false
  | c0 :: rest =>
    match stripFold c0 text.data with
    | some t => wildTail rest t
    | none => false

/-- `compare(key, filters)` of the source: same segment count and every
segment matches the corresponding filter segment. -/
def compareKey (key : String) (filters : List String) : Bool :=
  let keys := splitKey key
  keys.length == filters.length && (keys.zip filters).all (fun p => jsmatch p.1 p.2)

/-- The in-memory cache: a JavaScript object from full keys to string
values, in insertion order. -/
abbrev Cache := List (String × String)

/-- `filter(keys, filter)` of the source. -/
def filter (keys : Cache) (filt : String) : Cache :=
  let filters := splitKey filt
  keys.filter (fun kv => compareKey kv.1 filters)

/-! ### Cache reads and writes -/

/-- `cache[key]`: the stored string, or `none` for `undefined`. -/
def lookup (cache : Cache) (key : String) : Option String :=
  (cache.find? (fun kv => kv.1 == key)).map (·.2)

/-- `cache[key] = value`: overwrite in place if present, append
otherwise (JavaScript object assignment keeps the original position). -/
def jsSet (cache : Cache) (key value : String) : Cache :=
  if cache.any (fun kv => kv.1 == key) then
    cache.map (fun kv => if kv.1 == key then (key, value) else kv)
  else cache ++ [(key, value)]

/-- Replay a list of store writes onto the cache, in order, as the watch
stream would. -/
def applyPuts (cache : Cache) (puts : List (String × String)) : Cache :=
  puts.foldl (fun m kv => jsSet m kv.1 kv.2) cache

/-! ### The engine, translated from `index.js` -/

/-- `isValidMode(mode)` of the source. -/
def isValidMode : Option String → Bool
  | some "allsystems" => true
  | some "bysystem" => true
  | _ => false

/-- `getOppositeRole(role, provider)` of the source; `none` models the
`null` result. -/
def getOppositeRole : Option String → Option String → Option String
  | some "provider", provider => if provider == some "yes" then some "consumer" else none
  | some "consumer", provider => if provider == some "yes" then none else some "provider"
  | _, _ => none

/-- `update(key, value)` of the source: the single `put` it issues, if
any.  The source's `=== null` tests on `version`, `provider` and `other`
are modelled as never holding: cache reads yield a string or
`undefined`, never `null`, so only the mode test and the
`getOppositeRole` result can stop the function. -/
def update (cache : Cache) (key value : String) : Option (String × String) :=
  let parts := splitKey key
  let network := parts.get? 1
  let node := parts.get? 3
  let context := parts.get? 5
  let role := parts.get? 6
  let profile := parts.get? 7
  let connection := parts.get? 9
  let property := parts.get? 11
  let ns0 := "cns/" ++ jstr network
  let mode := lookup cache (ns0 ++ "/orchestrator")
  if !isValidMode mode then none
  else
    let ns := ns0 ++ "/nodes/" ++ jstr node ++ "/contexts/" ++ jstr context ++ "/" ++
      jstr role ++ "/" ++ jstr profile
    let version := lookup cache (ns ++ "/version")
    let provider := lookup cache ("cns/" ++ jstr network ++ "/profiles/" ++ jstr profile ++
      "/versions/version" ++ jstr version ++ "/properties/" ++ jstr property ++ "/provider")
    match getOppositeRole role provider with
    | none => none
    | some opposite =>
      let other := lookup cache (ns ++ "/connections/" ++ jstr connection ++ "/" ++ opposite)
      some (jstr other ++ "/" ++ opposite ++ "/" ++ jstr profile ++ "/connections/" ++
        jstr connection ++ "/properties/" ++ jstr property, value)

/-- `propagate(key, value)` of the source: the list of `put`s it issues,
one per cache entry matching `ns/connections/*/{opposite}`.  The `=== null`
tests are modelled as in `update`. -/
def propagate (cache : Cache) (key value : String) : List (String × String) :=
  let parts := splitKey key
  let network := parts.get? 1
  let node := parts.get? 3
  let context := parts.get? 5
  let role := parts.get? 6
  let profile := parts.get? 7
  let property := parts.get? 9
  let ns0 := "cns/" ++ jstr network
  let mode := lookup cache (ns0 ++ "/orchestrator")
  if !isValidMode mode then []
  else
    let ns := ns0 ++ "/nodes/" ++ jstr node ++ "/contexts/" ++ jstr context ++ "/" ++
      jstr role ++ "/" ++ jstr profile
    let version := lookup cache (ns ++ "/version")
    let provider := lookup cache ("cns/" ++ jstr network ++ "/profiles/" ++ jstr profile ++
      "/versions/version" ++ jstr version ++ "/properties/" ++ jstr property ++ "/provider")
    match getOppositeRole role provider with
    | none => []
    | some opposite =>
      let conns := filter cache (ns ++ "/connections/*/" ++ opposite)
      conns.map (fun kv =>
        (joinKey ((splitKey kv.1).dropLast ++ ["properties", jstr property]), value))

/-- A candidate connection, as pushed onto `add` by the matchmaker. -/
structure Cand where
  provider : String
  consumer : String
  profile : String
  version : String
deriving DecidableEq

/-- `bysystem(network, provider, profile, version, scope, add)` of the
source: the candidates it appends. -/
def bysystem (cache : Cache) (network provider profile version scope : String) : List Cand :=
  (filter cache ("cns/" ++ network ++ "/nodes/*/name")).flatMap (fun nkv =>
    let node := jstr ((splitKey nkv.1).get? 3)
    (filter cache ("cns/" ++ network ++ "/nodes/" ++ node ++ "/contexts/*/name")).flatMap (fun ckv =>
      let context := (splitKey ckv.1).get? 5
      if context == some scope then
        let consumer := "cns/" ++ network ++ "/nodes/" ++ node ++ "/contexts/" ++ jstr context
        (filter cache (consumer ++ "/consumer/" ++ profile ++ "/version")).filterMap (fun kv =>
          if kv.2 == version then some ⟨provider, consumer, profile, version⟩ else none)
      else []))

/-- `allsystems(provider, profile, version, scope, add)` of the source. -/
def allsystems (cache : Cache) (provider profile version scope : String) : List Cand :=
  (filter cache "cns/*/name").flatMap (fun kv =>
    bysystem cache (jstr ((splitKey kv.1).get? 1)) provider profile version scope)

/-- `consumers(mode, network, node, context, profile, version, add)` of
the source. -/
def consumers (cache : Cache) (mode : Option String)
    (network node context profile version : String) : List Cand :=
  let provider := "cns/" ++ network ++ "/nodes/" ++ node ++ "/contexts/" ++ context
  let scope := context
  match mode with
  | some "allsystems" => allsystems cache provider profile version scope
  | some "bysystem" => bysystem cache network provider profile version scope
  | _ => []

/-- The candidates one network contributes in `build()`: the nested
node/context/provider-capability loops. -/
def buildNet (cache : Cache) (mode : Option String) (network : String) : List Cand :=
  (filter cache ("cns/" ++ network ++ "/nodes/*/name")).flatMap (fun nkv =>
    let node := jstr ((splitKey nkv.1).get? 3)
    let ns2 := "cns/" ++ network ++ "/nodes/" ++ node
    (filter cache (ns2 ++ "/contexts/*/name")).flatMap (fun ckv =>
      let context := jstr ((splitKey ckv.1).get? 5)
      let ns3 := ns2 ++ "/contexts/" ++ context
      (filter cache (ns3 ++ "/provider/*/version")).flatMap (fun pkv =>
        let profile := jstr ((splitKey pkv.1).get? 7)
        consumers cache mode network node context profile pkv.2)))

/-- The network loop of `build()`.  On a network whose mode is invalid
the source executes `return`, aborting the whole build, so the result is
`none` (no candidate list reaches `connections`) rather than the
remaining networks' candidates. -/
def buildGo (cache : Cache) : List (String × String) → Option (List Cand)
  | [] => some []
  | kv :: rest =>
    let network := jstr ((splitKey kv.1).get? 1)
    let mode := lookup cache ("cns/" ++ network ++ "/orchestrator")
    if isValidMode mode then
      (buildGo cache rest).map (fun r => buildNet cache mode network ++ r)
    else none

/-- The candidate list `build()` hands to `connections`, or `none` when
the build aborted on an invalid mode. -/
def buildCands (cache : Cache) : Option (List Cand) :=
  buildGo cache (filter cache "cns/*/name")

/-- Segment 9 of a key: the property name position of a
capability-defaults key, stringified as the source's object indexing
does. -/
def nameAt9 (k : String) : String := jstr ((splitKey k).get? 9)

/-- The `properties` object `connections(add)` builds for a candidate:
the provider capability's defaults inserted first, then the consumer
capability's defaults (overwriting on equal property name), each keyed by
segment 9 of its cache key. -/
def mergedDefaults (cache : Cache) (c : Cand) : List (String × String) :=
  let propsp := filter cache (c.provider ++ "/provider/" ++ c.profile ++ "/properties/*")
  let propsc := filter cache (c.consumer ++ "/consumer/" ++ c.profile ++ "/properties/*")
  let props1 := propsp.foldl (fun m kv => jsSet m (nameAt9 kv.1) kv.2) []
  propsc.foldl (fun m kv => jsSet m (nameAt9 kv.1) kv.2) props1

/-- The last value among a capability's default-property entries whose
key's segment 9 is the given name (in a well-formed store there is at
most one). -/
def lastDefault (props : Cache) (name : String) : Option String :=
  ((props.filter (fun kv => nameAt9 kv.1 == name)).getLast?).map (·.2)

/-- One iteration of the candidate loop of `connections(add)`: the
`put`s issued for candidate `c` with `freshId` as the id
`short.generate()` would return, and whether that fresh id was
consumed.  The id recorded by the two search loops may itself be the
JavaScript `undefined` (a matched key shorter than 10 segments), which
the source distinguishes from the initial `null`; `stored` models
that. -/
def connectionsOne (cache : Cache) (freshId : String) (c : Cand) :
    List (String × String) × Bool :=
  let provFound := filter cache (c.provider ++ "/provider/" ++ c.profile ++ "/connections/*/consumer")
  let consFound := filter cache (c.consumer ++ "/consumer/" ++ c.profile ++ "/connections/*/provider")
  let fp := provFound.find? (fun kv => kv.2 == c.consumer)
  let fc := consFound.find? (fun kv => kv.2 == c.provider)
  let addp := fp.isNone
  let addc := fc.isNone
  if !addp && !addc then ([], false)
  else
    let properties := mergedDefaults cache c
    let stored : Option (Option String) :=
      match fc with
      | some kv => some ((splitKey kv.1).get? 9)
      | none =>
        match fp with
        | some kv => some ((splitKey kv.1).get? 9)
        | none => none
    let id := match stored with
      | some v => jstr v
      | none => freshId
    let putp :=
      if addp then
        let ns := c.provider ++ "/provider/" ++ c.profile ++ "/connections/" ++ id ++ "/"
        (ns ++ "consumer", c.consumer) ::
          properties.map (fun nv => (ns ++ "properties/" ++ nv.1, nv.2))
      else []
    let putc :=
      if addc then
        let ns := c.consumer ++ "/consumer/" ++ c.profile ++ "/connections/" ++ id ++ "/"
        (ns ++ "provider", c.provider) ::
          properties.map (fun nv => (ns ++ "properties/" ++ nv.1, nv.2))
      else []
    (putp ++ putc, stored.isNone)

/-- The candidate loop of `connections(add)`, threading the count of
fresh ids consumed so far so that `gen n` is the id the `n`-th call of
`short.generate()` returns. -/
def connectionsGo (cache : Cache) (gen : Nat → String) : Nat → List Cand → List (String × String)
  | _, [] => []
  | n, c :: rest =>
    let pr := connectionsOne cache (gen n) c
    pr.1 ++ connectionsGo cache gen (if pr.2 then n + 1 else n) rest

/-- `connections(add)` of the source: the `put`s issued, in order. -/
def connections (cache : Cache) (gen : Nat → String) (add : List Cand) :
    List (String × String) :=
  connectionsGo cache gen 0 add

/-- The `put`s a full `build()` pass issues: the matchmaker's candidates
fed to `connections`, or nothing when the build aborted on an invalid
mode. -/
def buildPuts (cache : Cache) (gen : Nat → String) : List (String × String) :=
  match buildCands cache with
  | some add => connections cache gen add
  | none => []

/-- What `onput` does after refreshing the cache: nothing, schedule a
rebuild, call `update`, or call `propagate` (the latter two carry the
`put`s the call issues). -/
inductive Effect where
  | none
  | rebuild
  | updated (put : Option (String × String))
  | propagated (puts : List (String × String))
deriving DecidableEq

/-- `onput(key, value)` of the source: the cache after the event and the
action dispatched.  Out-of-scope keys leave the cache untouched; in
scope, the cache is refreshed before dispatch, so `update` and
`propagate` run against the refreshed cache. -/
def onput (cache : Cache) (key value : String) : Cache × Effect :=
  let parts := splitKey key
  let root := parts.get? 0
  let network := parts.get? 1
  let property := parts.get? 2
  let role := parts.get? 6
  let capability := parts.get? 8
  let connection := parts.get? 10
  if root ≠ some "cns" ∨ network = Option.none then (cache, Effect.none)
  else
    let cache2 := jsSet cache key value
    match property with
    | some "orchestrator" => (cache2, Effect.rebuild)
    | some "nodes" =>
      match role with
      | some "provider" | some "consumer" =>
        match capability with
        | some "version" | some "scope" => (cache2, Effect.rebuild)
        | some "connections" =>
          match connection with
          | some "properties" => (cache2, Effect.updated (update cache2 key value))
          | _ => (cache2, Effect.none)
        | some "properties" => (cache2, Effect.propagated (propagate cache2 key value))
        | _ => (cache2, Effect.none)
      | _ => (cache2, Effect.none)
    | some "profiles" => (cache2, Effect.rebuild)
    | _ => (cache2, Effect.none)

/-! ### Declarative matching semantics and well-formedness predicates -/

/-- Declarative reading of the tail `.*c₁.*c₂…​.*cₙ$` of the compiled
wildcard expression: the text is gap, chunk, gap, chunk, …, ending with
the last chunk, where every gap avoids line terminators and chunks are
compared case-folded. -/
inductive Wild : List (List Char) → List Char → Prop where
  | nil : Wild [] []
  | step (c : List Char) (cs : List (List Char)) (w u v : List Char) :
      (∀ x ∈ w, lineTerm x = false) → u.map fold = c.map fold → Wild cs v →
      Wild (c :: cs) (w ++ u ++ v)

/-- Declarative reading of one segment match: the segment starts with the
first literal chunk (case-folded) and the rest satisfies `Wild`. -/
def SegMatch (seg filtSeg : String) : Prop :=
  match splitChars '*' filtSeg.data with
  | [] => False
  | c0 :: rest => ∃ u v, seg.data = u ++ v ∧ u.map fold = c0.map fold ∧ Wild rest v

/-- Declarative reading of a whole-key match: equal segment counts and
segmentwise `SegMatch` (this is what `List.Forall₂` states). -/
def KeyMatch (key pat : String) : Prop :=
  List.Forall₂ (fun s f => SegMatch s f) (splitKey key) (splitKey pat)

/-- `seekChunk` without the line-terminator exception, as the claim's
wording has it. -/
def seekChunkAny (next : List Char → Bool) (c : List Char) : List Char → Bool
  | [] =>
    (match stripFold c [] with
     | some r => next r
     | none => false)
  | x :: xs =>
    ((match stripFold c (x :: xs) with
      | some r => next r
      | none => false)
     || seekChunkAny next c xs)

/-- The claim's reading of the segment matcher, in which `*` matches any
(possibly empty) character sequence, with no line-terminator exception:
`wildTailAny` is `wildTail` minus the line-terminator test.  Modelled
from the specification's wording, for comparison with the code's
matcher. -/
def wildTailAny : List (List Char) → List Char → Bool
  | [], t => t.isEmpty
  | c :: cs, t => seekChunkAny (wildTailAny cs) c t

/-- The claim's reading of `match(text, filter)`: as `jsmatch` but with
`*` matching arbitrary characters.  Modelled from the specification's
wording. -/
def jsmatchClaimed (text filt : String) : Bool :=
  match splitChars '*' filt.data with
  | [] => false
  | c0 :: rest =>
    match stripFold c0 text.data with
    | some t => wildTailAny rest t
    | none => false

/-- The claim's reading of `filter(map, pattern)`.  Modelled from the
specification's wording, for comparison with the code's `filter`. -/
def claimedFilter (keys : Cache) (filt : String) : Cache :=
  let filters := splitKey filt
  keys.filter (fun kv =>
    (splitKey kv.1).length == filters.length &&
      ((splitKey kv.1).zip filters).all (fun p => jsmatchClaimed p.1 p.2))

/-- Rebuild a string from the chunks its split on `*` produced:
`c₀*c₁*…​*cₙ`, used to state that every string matches itself. -/
def starTail : List (List Char) → List Char
  | [] => []
  | c :: cs => '*' :: (c ++ starTail cs)

/-- A well-behaved key segment: free of the separator and of line
terminators.  Segments of real store keys satisfy this. -/
def goodSeg (s : String) : Prop :=
  ∀ c ∈ s.data, c ≠ '/' ∧ lineTerm c = false

/-- The opposite of a role name, used to state the direction claims:
`provider ↔ consumer`. -/
def oppRole (role : String) : String :=
  if role = "provider" then "consumer" else "provider"

/-- The shape of an endpoint prefix the matchmaker builds:
`cns/{network}/nodes/{node}/contexts/{context}` with well-behaved
segments. -/
def endpointShape (s : String) : Prop :=
  ∃ a b c, goodSeg a ∧ goodSeg b ∧ goodSeg c ∧
    s = "cns/" ++ a ++ "/nodes/" ++ b ++ "/contexts/" ++ c

/-- A candidate whose endpoints have the matchmaker's shape and whose
profile is a well-behaved segment. -/
def goodCand (cd : Cand) : Prop :=
  endpointShape cd.provider ∧ endpointShape cd.consumer ∧ goodSeg cd.profile

/-- Every key of the cache is free of line terminators. -/
def goodKeys (cache : Cache) : Prop :=
  ∀ kv ∈ cache, ∀ ch ∈ (kv.1 : String).data, lineTerm ch = false

/-! ### Concrete store contents used by the closed theorems -/

/-- A store with two networks: `n1` first with an unrecognised
orchestrator mode, then `n2` in `bysystem` mode holding a matching
provider/consumer pair (provider `p1` v1 in node `a` context `x`,
consumer `p1` v1 in node `b` context `x`). -/
def cacheTwoNets : Cache :=
  [("cns/n1/name", "n1"), ("cns/n1/orchestrator", "weird"),
   ("cns/n2/name", "n2"), ("cns/n2/orchestrator", "bysystem"),
   ("cns/n2/nodes/a/name", "a"), ("cns/n2/nodes/a/contexts/x/name", "x"),
   ("cns/n2/nodes/a/contexts/x/provider/p1/version", "1"),
   ("cns/n2/nodes/b/name", "b"), ("cns/n2/nodes/b/contexts/x/name", "x"),
   ("cns/n2/nodes/b/contexts/x/consumer/p1/version", "1")]

/-- `cacheTwoNets` without the invalid network `n1`. -/
def cacheOneNet : Cache :=
  [("cns/n2/name", "n2"), ("cns/n2/orchestrator", "bysystem"),
   ("cns/n2/nodes/a/name", "a"), ("cns/n2/nodes/a/contexts/x/name", "x"),
   ("cns/n2/nodes/a/contexts/x/provider/p1/version", "1"),
   ("cns/n2/nodes/b/name", "b"), ("cns/n2/nodes/b/contexts/x/name", "x"),
   ("cns/n2/nodes/b/contexts/x/consumer/p1/version", "1")]

/-- The default-merge scenario: provider capability defaults
`{a: "p1", b: "p2"}` and consumer capability defaults
`{b: "c2", c: "c3"}`, with no connection records. -/
def cacheMerge : Cache :=
  [("cns/n/nodes/a/contexts/x/provider/p1/properties/a", "p1"),
   ("cns/n/nodes/a/contexts/x/provider/p1/properties/b", "p2"),
   ("cns/n/nodes/b/contexts/x/consumer/p1/properties/b", "c2"),
   ("cns/n/nodes/b/contexts/x/consumer/p1/properties/c", "c3")]

/-- The candidate of the default-merge scenario. -/
def candMerge : Cand :=
  ⟨"cns/n/nodes/a/contexts/x", "cns/n/nodes/b/contexts/x", "p1", "1"⟩

/-- The context-mismatch scenario S2: provider `p1` v1 in node `a`
context `x`, the only consumer of `p1` v1 in node `b` context `y`. -/
def cacheMismatch : Cache :=
  [("cns/n/name", "n"), ("cns/n/orchestrator", "bysystem"),
   ("cns/n/nodes/a/name", "a"), ("cns/n/nodes/a/contexts/x/name", "x"),
   ("cns/n/nodes/a/contexts/x/provider/p1/version", "1"),
   ("cns/n/nodes/b/name", "b"), ("cns/n/nodes/b/contexts/y/name", "y"),
   ("cns/n/nodes/b/contexts/y/consumer/p1/version", "1")]

/-- A store in which two different consumer endpoints (nodes `b` and
`c`, both in context `x`) each hold a pre-existing consumer-side
connection record with the SAME id `j7` pointing at the same provider
endpoint, while the provider side holds no record. -/
def cacheDupIds : Cache :=
  [("cns/n/name", "n"), ("cns/n/orchestrator", "bysystem"),
   ("cns/n/nodes/a/name", "a"), ("cns/n/nodes/a/contexts/x/name", "x"),
   ("cns/n/nodes/a/contexts/x/provider/p1/version", "1"),
   ("cns/n/nodes/b/name", "b"), ("cns/n/nodes/b/contexts/x/name", "x"),
   ("cns/n/nodes/b/contexts/x/consumer/p1/version", "1"),
   ("cns/n/nodes/b/contexts/x/consumer/p1/connections/j7/provider",
    "cns/n/nodes/a/contexts/x"),
   ("cns/n/nodes/c/name", "c"), ("cns/n/nodes/c/contexts/x/name", "x"),
   ("cns/n/nodes/c/contexts/x/consumer/p1/version", "1"),
   ("cns/n/nodes/c/contexts/x/consumer/p1/connections/j7/provider",
    "cns/n/nodes/a/contexts/x")]

/-- The capability-level propagation scenario: profile `p1` declares
`temp` as provider-owned, and the provider capability has two existing
connections `c1` and `c2`. -/
def cachePropagate : Cache :=
  [("cns/n/orchestrator", "bysystem"),
   ("cns/n/nodes/a/contexts/x/provider/p1/version", "1"),
   ("cns/n/profiles/p1/versions/version1/properties/temp/provider", "yes"),
   ("cns/n/nodes/a/contexts/x/provider/p1/connections/c1/consumer",
    "cns/n/nodes/b/contexts/x"),
   ("cns/n/nodes/a/contexts/x/provider/p1/connections/c2/consumer",
    "cns/n/nodes/d/contexts/x")]

/-- A stand-in id generator for the closed scenarios: every call of
`short.generate()` returns `gid`. -/
def genStub : Nat → String := fun _ => "gid"

/-! ### Lemmas: key segmentation -/

theorem splitChars_cons (sep c : Char) (cs : List Char) :
    splitChars sep (c :: cs) =
      match splitChars sep cs with
      | [] => [[]]
      | seg :: rest => if c = sep then [] :: seg :: rest else (c :: seg) :: rest := rfl

theorem splitChars_ne_nil (sep : Char) (l : List Char) : splitChars sep l ≠ [] := by
  cases l with
  | nil => simp [splitChars]
  | cons c cs =>
    rw [splitChars_cons]
    rcases h : splitChars sep cs with _ | ⟨seg, rest⟩
    · simp
    · by_cases hc : c = sep <;> simp [hc]

theorem splitChars_sepfree {sep : Char} {l : List Char} (h : ∀ c ∈ l, c ≠ sep) :
    splitChars sep l = [l] := by
  induction l with
  | nil => rfl
  | cons c cs ih =>
    rw [splitChars_cons, ih (fun x hx => h x (List.mem_cons_of_mem _ hx))]
    simp [h c (List.mem_cons_self _ _)]

theorem splitChars_append (sep : Char) (l r : List Char) :
    splitChars sep (l ++ sep :: r) = splitChars sep l ++ splitChars sep r := by
  induction l with
  | nil =>
    rw [List.nil_append]
    rw [splitChars_cons]
    rcases h : splitChars sep r with _ | ⟨seg, rest⟩
    · exact absurd h (splitChars_ne_nil sep r)
    · simp [splitChars]
  | cons c cs ih =>
    rw [List.cons_append, splitChars_cons, ih, splitChars_cons]
    rcases h : splitChars sep cs with _ | ⟨seg, rest⟩
    · exact absurd h (splitChars_ne_nil sep cs)
    · by_cases hc : c = sep <;> simp [hc]

theorem mem_splitChars_sepfree {sep : Char} :
    ∀ {l seg : List Char}, seg ∈ splitChars sep l → ∀ c ∈ seg, c ≠ sep := by
  intro l
  induction l with
  | nil =>
    intro seg hseg c hc
    simp [splitChars] at hseg
    subst hseg
    simp at hc
  | cons a as ih =>
    intro seg hseg c hc
    rw [splitChars_cons] at hseg
    rcases h : splitChars sep as with _ | ⟨s0, rest⟩
    · exact absurd h (splitChars_ne_nil sep as)
    · rw [h] at hseg
      have hseg2 : seg ∈ (if a = sep then [] :: s0 :: rest else (a :: s0) :: rest) := hseg
      by_cases ha : a = sep
      · rw [if_pos ha] at hseg2
        rcases List.mem_cons.1 hseg2 with h1 | h1
        · subst h1; simp at hc
        · exact ih (h ▸ h1) c hc
      · rw [if_neg ha] at hseg2
        rcases List.mem_cons.1 hseg2 with h1 | h1
        · subst h1
          rcases List.mem_cons.1 hc with h2 | h2
          · subst h2; exact ha
          · exact ih (h ▸ List.mem_cons_self s0 rest) c h2
        · exact ih (h ▸ List.mem_cons_of_mem s0 h1) c hc

theorem mk_data (s : String) : String.mk s.data = s := by cases s; rfl

theorem splitKey_plain {s : String} (h : ∀ c ∈ s.data, c ≠ '/') : splitKey s = [s] := by
  unfold splitKey
  rw [splitChars_sepfree h]
  simp [mk_data]

theorem splitKey_append (a b : String) : splitKey (a ++ "/" ++ b) = splitKey a ++ splitKey b := by
  unfold splitKey
  have h1 : (a ++ "/" ++ b).data = a.data ++ '/' :: b.data := by
    rw [String.data_append, String.data_append]
    simp
  rw [h1, splitChars_append, List.map_append]

theorem splitKey_join_sepfree : ∀ (l : List String), l ≠ [] →
    (∀ s ∈ l, ∀ c ∈ s.data, c ≠ '/') → splitKey (joinKey l) = l := by
  intro l
  induction l with
  | nil => intro h; exact absurd rfl h
  | cons s rest ih =>
    intro _ hf
    cases rest with
    | nil =>
      show splitKey s = [s]
      exact splitKey_plain (hf s (by simp))
    | cons s2 r2 =>
      show splitKey (s ++ "/" ++ joinKey (s2 :: r2)) = s :: s2 :: r2
      rw [splitKey_append, splitKey_plain (hf s (by simp)),
        ih (by simp) (fun x hx => hf x (List.mem_cons_of_mem _ hx))]
      rfl

/-! ### Lemmas: the wildcard matcher -/

theorem stripFold_of_foldEq :
    ∀ {p u : List Char}, p.map fold = u.map fold → ∀ (r : List Char),
      stripFold p (u ++ r) = some r := by
  intro p
  induction p with
  | nil =>
    intro u h r
    have : u = [] := by
      cases u with
      | nil => rfl
      | cons b us => simp at h
    subst this
    rfl
  | cons a ps ih =>
    intro u h r
    cases u with
    | nil => simp at h
    | cons b us =>
      simp only [List.map_cons, List.cons.injEq] at h
      show stripFold (a :: ps) (b :: (us ++ r)) = some r
      unfold stripFold
      rw [if_pos h.1]
      exact ih h.2 r

theorem stripFold_some :
    ∀ {p t r : List Char}, stripFold p t = some r →
      ∃ u, t = u ++ r ∧ p.map fold = u.map fold := by
  intro p
  induction p with
  | nil =>
    intro t r h
    have ht : t = r := by simpa [stripFold] using h
    exact ⟨[], by simp [ht], rfl⟩
  | cons a ps ih =>
    intro t r h
    cases t with
    | nil => simp [stripFold] at h
    | cons c cs =>
      unfold stripFold at h
      by_cases hf : fold a = fold c
      · rw [if_pos hf] at h
        obtain ⟨u, hu, hfe⟩ := ih h
        exact ⟨c :: u, by simp [hu], by simp [hf, hfe]⟩
      · rw [if_neg hf] at h
        exact absurd h (by simp)

theorem wildTail_cons_eq (c : List Char) (cs : List (List Char)) (t : List Char) :
    wildTail (c :: cs) t =
      ((match stripFold c t with
        | some t2 => wildTail cs t2
        | none => false)
      ||
      (match t with
       | [] => false
       | x :: xs => !lineTerm x && wildTail (c :: cs) xs)) := by
  cases t with
  | nil => simp [wildTail, seekChunk]
  | cons x xs => rfl

theorem wild_nil_inv {t : List Char} (h : Wild [] t) : t = [] := by
  cases h
  rfl

theorem wild_cons_inv {c : List Char} {cs : List (List Char)} {t : List Char}
    (h : Wild (c :: cs) t) :
    ∃ w u v, t = w ++ u ++ v ∧ (∀ x ∈ w, lineTerm x = false) ∧
      u.map fold = c.map fold ∧ Wild cs v := by
  cases h with
  | step _ _ w u v hw hu hv => exact ⟨w, u, v, rfl, hw, hu, hv⟩

theorem wildTail_iff : ∀ (cs : List (List Char)) (t : List Char),
    wildTail cs t = true ↔ Wild cs t := by
  intro cs
  induction cs with
  | nil =>
    intro t
    constructor
    · intro h
      have ht : t = [] := by simpa [wildTail, List.isEmpty_iff] using h
      subst ht
      exact Wild.nil
    · intro h
      rw [wild_nil_inv h]
      rfl
  | cons c cs ih =>
    intro t
    induction t with
    | nil =>
      rw [wildTail_cons_eq]
      constructor
      · intro h
        rcases hs : stripFold c [] with _ | t2
        · rw [hs] at h
          simp at h
        · rw [hs] at h
          simp only [Bool.or_false] at h
          obtain ⟨u, hu, hfe⟩ := stripFold_some hs
          have hu2 : u = [] ∧ t2 = [] := by
            constructor <;> [skip; skip] <;>
              · cases u with
                | nil => first | rfl | (simp at hu; exact hu)
                | cons a us => simp at hu
          obtain ⟨h1, h2⟩ := hu2
          subst h1; subst h2
          have : Wild cs [] := (ih []).1 h
          have := Wild.step c cs [] [] [] (by simp) (by simpa using hfe.symm) this
          simpa using this
      · intro h
        obtain ⟨w, u, v, he, hw, hu, hv⟩ := wild_cons_inv h
        have hw0 : w = [] := by cases w <;> first | rfl | simp at he
        subst hw0
        have hu0 : u = [] := by cases u <;> first | rfl | simp at he
        subst hu0
        have hv0 : v = [] := by simpa using he
        subst hv0
        have hc : c.map fold = [] := by simpa using hu.symm
        have hc0 : c = [] := by cases c <;> first | rfl | simp at hc
        subst hc0
        have : stripFold ([] : List Char) [] = some [] := rfl
        rw [this]
        simp [(ih []).2 hv]
    | cons x xs iht =>
      rw [wildTail_cons_eq]
      constructor
      · intro h
        rcases Bool.or_eq_true_iff.1 h with hA | hB
        · rcases hs : stripFold c (x :: xs) with _ | t2
          · rw [hs] at hA; simp at hA
          · rw [hs] at hA
            obtain ⟨u, hu, hfe⟩ := stripFold_some hs
            have : Wild cs t2 := (ih t2).1 hA
            have hstep := Wild.step c cs [] u t2 (by simp) hfe.symm this
            rw [List.nil_append, ← hu] at hstep
            exact hstep
        · simp only [Bool.and_eq_true, Bool.not_eq_true'] at hB
          have : Wild (c :: cs) xs := iht.1 hB.2
          obtain ⟨w, u, v, he, hw, hu, hv⟩ := wild_cons_inv this
          have hstep := Wild.step c cs (x :: w) u v
            (by
              intro y hy
              rcases List.mem_cons.1 hy with h1 | h1
              · subst h1; exact hB.1
              · exact hw y h1) hu hv
          simpa [he] using hstep
      · intro h
        obtain ⟨w, u, v, he, hw, hu, hv⟩ := wild_cons_inv h
        cases w with
        | nil =>
          rw [List.nil_append] at he
          have : stripFold c (u ++ v) = some v := stripFold_of_foldEq hu.symm v
          rw [he, this]
          simp [(ih v).2 hv]
        | cons y w2 =>
          have hx : x = y ∧ xs = w2 ++ u ++ v := by
            simpa using he
          obtain ⟨hx1, hx2⟩ := hx
          subst hx1
          have hwild : Wild (c :: cs) xs :=
            hx2 ▸ Wild.step c cs w2 u v (fun z hz => hw z (List.mem_cons_of_mem _ hz)) hu hv
          have hlt : lineTerm x = false := hw x (List.mem_cons_self _ _)
          have hxs : wildTail (c :: cs) xs = true := iht.2 hwild
          refine Bool.or_eq_true_iff.2 (Or.inr ?_)
          show (!lineTerm x && wildTail (c :: cs) xs) = true
          rw [hlt, hxs]
          rfl

theorem jsmatch_iff (s p : String) : jsmatch s p = true ↔ SegMatch s p := by
  unfold jsmatch SegMatch
  rcases h : splitChars '*' p.data with _ | ⟨c0, rest⟩
  · simp
  · show (match stripFold c0 s.data with
          | some t => wildTail rest t
          | none => false) = true ↔
      ∃ u v, s.data = u ++ v ∧ u.map fold = c0.map fold ∧ Wild rest v
    constructor
    · intro hm
      rcases hs : stripFold c0 s.data with _ | t
      · rw [hs] at hm
        exact absurd hm (by simp)
      · rw [hs] at hm
        obtain ⟨u, hu, hfe⟩ := stripFold_some hs
        exact ⟨u, t, hu, hfe.symm, (wildTail_iff rest t).1 hm⟩
    · rintro ⟨u, v, hu, hfe, hw⟩
      rw [hu, stripFold_of_foldEq hfe.symm v]
      exact (wildTail_iff rest v).2 hw

theorem splitChars_star_reconstruct :
    ∀ l : List Char, ∃ c0 rest, splitChars '*' l = c0 :: rest ∧ l = c0 ++ starTail rest := by
  intro l
  induction l with
  | nil => exact ⟨[], [], rfl, rfl⟩
  | cons c cs ih =>
    obtain ⟨c0, rest, h, hrec⟩ := ih
    rw [splitChars_cons, h]
    by_cases hc : c = '*'
    · subst hc
      exact ⟨[], c0 :: rest, by simp, by simp [starTail, hrec]⟩
    · exact ⟨c :: c0, rest, by simp [hc], by simp [hrec]⟩

theorem seekChunk_of_strip (next : List Char → Bool) (c : List Char) (t r : List Char)
    (hs : stripFold c t = some r) (hn : next r = true) : seekChunk next c t = true := by
  cases t with
  | nil => simp [seekChunk, hs, hn]
  | cons x xs => simp [seekChunk, hs, hn]

theorem seekChunk_skip (next : List Char → Bool) (c : List Char) (x : Char) (xs : List Char)
    (hl : lineTerm x = false) (h : seekChunk next c xs = true) :
    seekChunk next c (x :: xs) = true := by
  simp [seekChunk, hl, h]

theorem wildTail_starTail : ∀ cs : List (List Char), wildTail cs (starTail cs) = true := by
  intro cs
  induction cs with
  | nil => rfl
  | cons c cs ih =>
    show seekChunk (wildTail cs) c ('*' :: (c ++ starTail cs)) = true
    refine seekChunk_skip _ _ _ _ rfl ?_
    exact seekChunk_of_strip _ _ _ _ (stripFold_of_foldEq rfl _) ih

theorem jsmatch_self (s : String) : jsmatch s s = true := by
  unfold jsmatch
  obtain ⟨c0, rest, h, hrec⟩ := splitChars_star_reconstruct s.data
  rw [h]
  show (match stripFold c0 s.data with
        | some t => wildTail rest t
        | none => false) = true
  rw [show s.data = c0 ++ starTail rest from hrec, stripFold_of_foldEq rfl _]
  exact wildTail_starTail rest

theorem jsmatch_plain {p : String} (hp : ∀ c ∈ p.data, c ≠ '*') (s : String) :
    jsmatch s p = true ↔ s.data.map fold = p.data.map fold := by
  unfold jsmatch
  rw [splitChars_sepfree hp]
  show (match stripFold p.data s.data with
        | some t => wildTail [] t
        | none => false) = true ↔ _
  constructor
  · intro h
    rcases hs : stripFold p.data s.data with _ | t
    · rw [hs] at h
      exact absurd h (by simp)
    · rw [hs] at h
      have ht : t = [] := by simpa [wildTail, List.isEmpty_iff] using h
      obtain ⟨u, hu, hfe⟩ := stripFold_some hs
      subst ht
      rw [show s.data = u from by simpa using hu]
      exact hfe.symm
  · intro h
    have h2 : stripFold p.data (s.data ++ []) = some [] := stripFold_of_foldEq h.symm []
    rw [List.append_nil] at h2
    rw [h2]
    rfl

theorem wildTail_empty_chunk : ∀ t : List Char,
    wildTail [[]] t = true ↔ ∀ c ∈ t, lineTerm c = false := by
  intro t
  induction t with
  | nil => simp [wildTail, seekChunk, stripFold]
  | cons x xs ih =>
    have hred : wildTail [[]] (x :: xs) =
        ((x :: xs).isEmpty || (!lineTerm x && wildTail [[]] xs)) := rfl
    rw [hred]
    simp [ih, List.forall_mem_cons]

theorem jsmatch_star (s : String) : jsmatch s "*" = true ↔ ∀ c ∈ s.data, lineTerm c = false := by
  show wildTail [[]] s.data = true ↔ _
  exact wildTail_empty_chunk s.data

theorem zipAll_iff {α β : Type} (p : α → β → Bool) :
    ∀ (l1 : List α) (l2 : List β),
      ((l1.length == l2.length) && (l1.zip l2).all fun q => p q.1 q.2) = true ↔
        List.Forall₂ (fun a b => p a b = true) l1 l2 := by
  intro l1
  induction l1 with
  | nil =>
    intro l2
    cases l2 with
    | nil => simp
    | cons b bs => simp
  | cons a as ih =>
    intro l2
    cases l2 with
    | nil => simp
    | cons b bs =>
      rw [List.forall₂_cons]
      simp only [List.length_cons, List.zip_cons_cons, List.all_cons, Bool.and_eq_true,
        beq_iff_eq, Nat.add_right_cancel_iff]
      constructor
      · rintro ⟨hlen, hp, hall⟩
        refine ⟨hp, (ih bs).1 ?_⟩
        simp [hlen, hall]
      · rintro ⟨hp, h2⟩
        have h3 := (ih bs).2 h2
        simp only [Bool.and_eq_true, beq_iff_eq] at h3
        exact ⟨h3.1, hp, h3.2⟩

theorem compareKey_iff (k : String) (fs : List String) :
    compareKey k fs = true ↔
      List.Forall₂ (fun s f => jsmatch s f = true) (splitKey k) fs := by
  unfold compareKey
  exact zipAll_iff _ _ _

theorem compareKey_KeyMatch (k pat : String) :
    compareKey k (splitKey pat) = true ↔ KeyMatch k pat := by
  rw [compareKey_iff]
  unfold KeyMatch
  constructor
  · intro h
    exact h.imp (fun a b hab => (jsmatch_iff a b).1 hab)
  · intro h
    exact h.imp (fun a b hab => (jsmatch_iff a b).2 hab)

theorem mem_filter_iff (m : Cache) (pat : String) (kv : String × String) :
    kv ∈ filter m pat ↔ kv ∈ m ∧ compareKey kv.1 (splitKey pat) = true := by
  unfold filter
  simp [List.mem_filter]

theorem compareKey_ne_lengths {k : String} {fs : List String}
    (h : (splitKey k).length ≠ fs.length) : compareKey k fs = false := by
  have hb : ((splitKey k).length == fs.length) = false := by simpa using h
  show ((splitKey k).length == fs.length && ((splitKey k).zip fs).all fun p => jsmatch p.1 p.2)
    = false
  rw [hb]
  rfl

/-! ### Lemmas: strings and the cache -/

theorem str_append_assoc (a b c : String) : a ++ b ++ c = a ++ (b ++ c) := by
  apply String.ext
  simp [String.data_append]

theorem lookup_nil (k : String) : lookup [] k = Option.none := rfl

theorem lookup_cons (a b : String) (m : Cache) (k : String) :
    lookup ((a, b) :: m) k = if a = k then some b else lookup m k := by
  unfold lookup
  rw [List.find?_cons]
  by_cases h : a = k
  · simp [h]
  · have hb : (a == k) = false := by simpa using h
    rw [show ((a, b).1 == k) = false from hb, if_neg h]

theorem lookup_append (m1 m2 : Cache) (k : String) :
    lookup (m1 ++ m2) k = (lookup m1 k).orElse (fun _ => lookup m2 k) := by
  induction m1 with
  | nil => rfl
  | cons ab m ih =>
    obtain ⟨a, b⟩ := ab
    rw [List.cons_append, lookup_cons, lookup_cons]
    by_cases h : a = k
    · simp [h, Option.orElse]
    · simp [h, ih]

theorem any_key_iff (m : Cache) (k : String) :
    m.any (fun kv => kv.1 == k) = true ↔ lookup m k ≠ Option.none := by
  induction m with
  | nil => simp [lookup_nil]
  | cons ab m ih =>
    obtain ⟨a, b⟩ := ab
    rw [lookup_cons]
    by_cases h : a = k <;> simp [h, ih]

theorem lookup_map_repl_ne (m : Cache) (k v q : String) (h : q ≠ k) :
    lookup (m.map (fun kv => if kv.1 == k then (k, v) else kv)) q = lookup m q := by
  induction m with
  | nil => rfl
  | cons ab m ih =>
    obtain ⟨a, b⟩ := ab
    simp only [List.map_cons]
    by_cases hak : a = k
    · rw [if_pos (by simpa using hak), lookup_cons, lookup_cons]
      rw [if_neg (fun hh => h hh.symm), if_neg (fun hh => h (hak ▸ hh).symm)]
      exact ih
    · rw [if_neg (by simpa using hak), lookup_cons, lookup_cons]
      by_cases haq : a = q
      · rw [if_pos haq, if_pos haq]
      · rw [if_neg haq, if_neg haq]
        exact ih

theorem lookup_map_repl_eq (m : Cache) (k v : String)
    (h : m.any (fun kv => kv.1 == k) = true) :
    lookup (m.map (fun kv => if kv.1 == k then (k, v) else kv)) k = some v := by
  induction m with
  | nil => simp at h
  | cons ab m ih =>
    obtain ⟨a, b⟩ := ab
    simp only [List.map_cons]
    by_cases hak : a = k
    · rw [if_pos (by simpa using hak), lookup_cons, if_pos rfl]
    · rw [if_neg (by simpa using hak), lookup_cons, if_neg hak]
      apply ih
      simpa [hak] using h

theorem lookup_jsSet (m : Cache) (k v q : String) :
    lookup (jsSet m k v) q = if q = k then some v else lookup m q := by
  unfold jsSet
  by_cases hany : m.any (fun kv => kv.1 == k) = true
  · rw [if_pos hany]
    by_cases hq : q = k
    · subst hq
      rw [if_pos rfl]
      exact lookup_map_repl_eq m q v hany
    · rw [if_neg hq]
      exact lookup_map_repl_ne m k v q hq
  · rw [if_neg hany, lookup_append]
    have h0 : lookup m k = Option.none := by
      by_contra hne
      exact hany ((any_key_iff m k).2 hne)
    by_cases hq : q = k
    · subst hq
      simp [h0, lookup_cons, Option.orElse]
    · rw [if_neg hq]
      have h1 : lookup [(k, v)] q = Option.none := by
        rw [lookup_cons, if_neg (fun hh => hq hh.symm)]
        rfl
      cases hl : lookup m q <;> simp [hl, h1, Option.orElse]

/-! ### Claim C10 -/

/-- Claim C10: for every put event whose key's first segment is not
`cns` or whose second (network) segment is absent, `onput` leaves the
cache completely unchanged and dispatches no action — no cache entry is
set, no rebuild is scheduled, and neither `update` nor `propagate` is
called. -/
theorem onput_out_of_scope (cache : Cache) (key value : String)
    (h : (splitKey key).get? 0 ≠ some "cns" ∨ (splitKey key).get? 1 = Option.none) :
    onput cache key value = (cache, Effect.none) := by
  dsimp only [onput]
  rw [if_pos h]

/-- Witness for C10 at a concrete input: a key rooted outside `cns`. -/
theorem onput_out_of_scope_witness :
    onput [("cns/n/name", "n")] "foo/bar" "v" = ([("cns/n/name", "n")], Effect.none) :=
  onput_out_of_scope [("cns/n/name", "n")] "foo/bar" "v" (Or.inl (by decide))

/-! ### Claim C9 -/

/-- Claim C9 is contradicted by the code: with a valid mode but no
`ns/version` key in the cache, `update` does not bail.  The source's
`if (version === null) return` can never fire, because a missing cache
entry reads as `undefined`, not `null`; for a consumer-role write the
missing provider flag then also reads as `undefined`, which differs from
`"yes"`, so the consumer is treated as owner and the put to the provider
side is issued (under a profile key containing `versionundefined`). -/
theorem update_missing_version_puts_anyway :
    update
      [("cns/n/orchestrator", "bysystem"),
       ("cns/n/nodes/a/contexts/x/consumer/p1/connections/7/provider",
        "cns/n/nodes/b/contexts/x")]
      "cns/n/nodes/a/contexts/x/consumer/p1/connections/7/properties/temp" "22"
    = some ("cns/n/nodes/b/contexts/x/provider/p1/connections/7/properties/temp", "22") := by
  decide

/-! ### Claim C8 -/

/-- Claim C8 is contradicted by the code: `build()` executes `return`
(not `continue`) on a network whose orchestrator mode is invalid, so the
whole build aborts and `connections` is never reached.  With invalid
network `n1` listed before valid network `n2`, the build issues no puts
at all, although the same store without `n1` yields `n2`'s two
connection records. -/
theorem build_aborts_on_invalid_mode :
    buildPuts cacheTwoNets (fun _ => "j1") = [] ∧
    buildPuts cacheOneNet (fun _ => "j1") =
      [("cns/n2/nodes/a/contexts/x/provider/p1/connections/j1/consumer",
        "cns/n2/nodes/b/contexts/x"),
       ("cns/n2/nodes/b/contexts/x/consumer/p1/connections/j1/provider",
        "cns/n2/nodes/a/contexts/x")] := by
  constructor
  · decide
  · decide

/-! ### Lemmas: the defaults merge -/

theorem getLast?_cons_orElse {α : Type} (a : α) (l : List α) :
    (a :: l).getLast? = (l.getLast?).orElse (fun _ => some a) := by
  cases l with
  | nil => rfl
  | cons b bs =>
    rw [List.getLast?_cons_cons]
    obtain ⟨x, hx⟩ : ∃ x, (b :: bs).getLast? = some x := by
      cases h : (b :: bs).getLast? with
      | none => exact absurd (List.getLast?_eq_none_iff.mp h) (by simp)
      | some x => exact ⟨x, rfl⟩
    rw [hx]
    rfl

theorem lastDefault_cons (kv : String × String) (l : Cache) (q : String) :
    lastDefault (kv :: l) q =
      if nameAt9 kv.1 = q then (lastDefault l q).orElse (fun _ => some kv.2)
      else lastDefault l q := by
  unfold lastDefault
  by_cases h : nameAt9 kv.1 = q
  · rw [if_pos h, List.filter_cons_of_pos (by simpa using h), getLast?_cons_orElse]
    cases hgl : (l.filter (fun kv => nameAt9 kv.1 == q)).getLast? <;>
      simp [hgl, Option.orElse]
  · rw [if_neg h, List.filter_cons_of_neg (by simpa using h)]

theorem lookup_foldl_defaults :
    ∀ (l : List (String × String)) (m : Cache) (q : String),
      lookup (l.foldl (fun acc kv => jsSet acc (nameAt9 kv.1) kv.2) m) q =
        (lastDefault l q).orElse (fun _ => lookup m q) := by
  intro l
  induction l with
  | nil =>
    intro m q
    cases h : lookup m q <;> simp [lastDefault, h, Option.orElse]
  | cons kv rest ih =>
    intro m q
    rw [List.foldl_cons, ih, lastDefault_cons, lookup_jsSet]
    by_cases h : nameAt9 kv.1 = q
    · rw [if_pos h, if_pos (h.symm)]
      cases hld : lastDefault rest q <;> simp [Option.orElse]
    · rw [if_neg h, if_neg (fun hh => h hh.symm)]

/-! ### Claim C3 -/

/-- Claim C3: the connection-level `properties/*` values written for a
candidate equal the union of the provider capability's default
properties and the consumer capability's default properties, the
consumer's value winning on any name present in both (consumer defaults
are merged after provider defaults).  First conjunct: the merged object
reads, for every name, the consumer-side value when present, else the
provider-side value.  Second conjunct: the literal example — provider
defaults `{a: "p1", b: "p2"}`, consumer defaults `{b: "c2", c: "c3"}` —
yields exactly `{a: "p1", b: "c2", c: "c3"}` on both newly created
sides. -/
theorem connection_defaults_union :
    (∀ (cache : Cache) (c : Cand) (name : String),
      lookup (mergedDefaults cache c) name =
        (lastDefault
            (filter cache (c.consumer ++ "/consumer/" ++ c.profile ++ "/properties/*"))
            name).orElse
          (fun _ => lastDefault
            (filter cache (c.provider ++ "/provider/" ++ c.profile ++ "/properties/*"))
            name)) ∧
    connectionsOne cacheMerge "J" candMerge =
      ([("cns/n/nodes/a/contexts/x/provider/p1/connections/J/consumer",
          "cns/n/nodes/b/contexts/x"),
        ("cns/n/nodes/a/contexts/x/provider/p1/connections/J/properties/a", "p1"),
        ("cns/n/nodes/a/contexts/x/provider/p1/connections/J/properties/b", "c2"),
        ("cns/n/nodes/a/contexts/x/provider/p1/connections/J/properties/c", "c3"),
        ("cns/n/nodes/b/contexts/x/consumer/p1/connections/J/provider",
          "cns/n/nodes/a/contexts/x"),
        ("cns/n/nodes/b/contexts/x/consumer/p1/connections/J/properties/a", "p1"),
        ("cns/n/nodes/b/contexts/x/consumer/p1/connections/J/properties/b", "c2"),
        ("cns/n/nodes/b/contexts/x/consumer/p1/connections/J/properties/c", "c3")],
       true) := by
  constructor
  · intro cache c name
    show lookup
        ((filter cache (c.consumer ++ "/consumer/" ++ c.profile ++ "/properties/*")).foldl
          (fun m kv => jsSet m (nameAt9 kv.1) kv.2)
          ((filter cache (c.provider ++ "/provider/" ++ c.profile ++ "/properties/*")).foldl
            (fun m kv => jsSet m (nameAt9 kv.1) kv.2) [])) name = _
    rw [lookup_foldl_defaults, lookup_foldl_defaults]
    cases h1 : lastDefault
        (filter cache (c.consumer ++ "/consumer/" ++ c.profile ++ "/properties/*")) name <;>
      cases h2 : lastDefault
        (filter cache (c.provider ++ "/provider/" ++ c.profile ++ "/properties/*")) name <;>
      simp [lookup_nil, Option.orElse]
  · decide

/-! ### Lemmas: `update` on a well-formed connection-property key -/

theorem update_segs (cache : Cache) (key : String)
    (net node ctx role prof conn p v : String)
    (h : splitKey key =
      ["cns", net, "nodes", node, "contexts", ctx, role, prof, "connections", conn,
       "properties", p]) :
    update cache key v =
      (if !isValidMode (lookup cache ("cns/" ++ net ++ "/orchestrator")) then Option.none
       else
         match getOppositeRole (some role)
             (lookup cache ("cns/" ++ net ++ "/profiles/" ++ prof ++ "/versions/version" ++
               jstr (lookup cache ("cns/" ++ net ++ "/nodes/" ++ node ++ "/contexts/" ++ ctx ++
                 "/" ++ role ++ "/" ++ prof ++ "/version")) ++ "/properties/" ++ p ++
               "/provider")) with
         | Option.none => Option.none
         | some opposite =>
           some (jstr (lookup cache ("cns/" ++ net ++ "/nodes/" ++ node ++ "/contexts/" ++
               ctx ++ "/" ++ role ++ "/" ++ prof ++ "/connections/" ++ conn ++ "/" ++
               opposite)) ++ "/" ++
             opposite ++ "/" ++ prof ++ "/connections/" ++ conn ++ "/properties/" ++ p, v)) := by
  dsimp only [update]
  rw [h]
  rfl

/-! ### Claim C4 -/

/-- Claim C4: for every write of value `v` at a connection-level
property key `.../{role}/{profile}/connections/{id}/properties/{p}`
under a network with a valid orchestrator mode: if the profile's
provider flag for `(profile, version, p)` makes the touched role the
owner (role `provider` with flag `"yes"`, or role `consumer` with flag
not `"yes"`) and the opposite-endpoint link key exists with value
`other`, then `update` issues exactly the put
`other ++ "/" ++ opposite ++ "/" ++ profile ++ "/connections/" ++ id ++
"/properties/" ++ p` with value `v`; and if the touched role is not the
owner, `update` issues no put. -/
theorem update_owner_direction (cache : Cache)
    (net node ctx role prof conn p v other : String) (flag : Option String)
    (hsegs : ∀ s ∈ [net, node, ctx, role, prof, conn, p], ∀ ch ∈ s.data, ch ≠ '/')
    (hmode : isValidMode (lookup cache ("cns/" ++ net ++ "/orchestrator")) = true)
    (hflag : lookup cache ("cns/" ++ net ++ "/profiles/" ++ prof ++ "/versions/version" ++
      jstr (lookup cache ("cns/" ++ net ++ "/nodes/" ++ node ++ "/contexts/" ++ ctx ++
        "/" ++ role ++ "/" ++ prof ++ "/version")) ++ "/properties/" ++ p ++
      "/provider") = flag) :
    (((role = "provider" ∧ flag = some "yes") ∨ (role = "consumer" ∧ flag ≠ some "yes")) →
      lookup cache ("cns/" ++ net ++ "/nodes/" ++ node ++ "/contexts/" ++ ctx ++ "/" ++ role ++
        "/" ++ prof ++ "/connections/" ++ conn ++ "/" ++ oppRole role) = some other →
      update cache
        (joinKey ["cns", net, "nodes", node, "contexts", ctx, role, prof, "connections", conn,
          "properties", p]) v =
        some (other ++ "/" ++ oppRole role ++ "/" ++ prof ++ "/connections/" ++ conn ++
          "/properties/" ++ p, v)) ∧
    (((role = "provider" ∧ flag ≠ some "yes") ∨ (role = "consumer" ∧ flag = some "yes")) →
      update cache
        (joinKey ["cns", net, "nodes", node, "contexts", ctx, role, prof, "connections", conn,
          "properties", p]) v = Option.none) := by
  have hnet := hsegs net (by simp)
  have hnode := hsegs node (by simp)
  have hctx := hsegs ctx (by simp)
  have hrole := hsegs role (by simp)
  have hprof := hsegs prof (by simp)
  have hconn := hsegs conn (by simp)
  have hp := hsegs p (by simp)
  have hks : splitKey (joinKey ["cns", net, "nodes", node, "contexts", ctx, role, prof,
      "connections", conn, "properties", p]) =
      ["cns", net, "nodes", node, "contexts", ctx, role, prof, "connections", conn,
       "properties", p] := by
    apply splitKey_join_sepfree _ (by simp)
    intro s hs
    simp only [List.mem_cons] at hs
    rcases hs with rfl | rfl | rfl | rfl | rfl | rfl | rfl | rfl | rfl | rfl | rfl | rfl | hs
    · decide
    · exact hnet
    · decide
    · exact hnode
    · decide
    · exact hctx
    · exact hrole
    · exact hprof
    · decide
    · exact hconn
    · decide
    · exact hp
    · simp at hs
  rw [update_segs cache _ net node ctx role prof conn p v hks, hmode, hflag]
  constructor
  · intro hown hother
    rcases hown with ⟨hr, hf⟩ | ⟨hr, hf⟩
    · subst hr
      subst hf
      have hother2 : lookup cache ("cns/" ++ net ++ "/nodes/" ++ node ++ "/contexts/" ++ ctx ++
          "/" ++ "provider" ++ "/" ++ prof ++ "/connections/" ++ conn ++ "/" ++ "consumer") =
          some other := hother
      show some (jstr (lookup cache ("cns/" ++ net ++ "/nodes/" ++ node ++ "/contexts/" ++
          ctx ++ "/" ++ "provider" ++ "/" ++ prof ++ "/connections/" ++ conn ++ "/" ++
          "consumer")) ++ "/" ++ "consumer" ++ "/" ++ prof ++ "/connections/" ++ conn ++
          "/properties/" ++ p, v) =
        some (other ++ "/" ++ "consumer" ++ "/" ++ prof ++ "/connections/" ++ conn ++
          "/properties/" ++ p, v)
      rw [hother2]
      rfl
    · subst hr
      have hfb : (flag == some "yes") = false := by simpa using hf
      have hopp : getOppositeRole (some "consumer") flag = some "provider" := by
        show (if (flag == some "yes") = true then Option.none else some "provider") =
          some "provider"
        rw [hfb]
        rfl
      have hother2 : lookup cache ("cns/" ++ net ++ "/nodes/" ++ node ++ "/contexts/" ++ ctx ++
          "/" ++ "consumer" ++ "/" ++ prof ++ "/connections/" ++ conn ++ "/" ++ "provider") =
          some other := hother
      rw [hopp]
      show some (jstr (lookup cache ("cns/" ++ net ++ "/nodes/" ++ node ++ "/contexts/" ++
          ctx ++ "/" ++ "consumer" ++ "/" ++ prof ++ "/connections/" ++ conn ++ "/" ++
          "provider")) ++ "/" ++ "provider" ++ "/" ++ prof ++ "/connections/" ++ conn ++
          "/properties/" ++ p, v) =
        some (other ++ "/" ++ "provider" ++ "/" ++ prof ++ "/connections/" ++ conn ++
          "/properties/" ++ p, v)
      rw [hother2]
      rfl
  · intro hnotown
    rcases hnotown with ⟨hr, hf⟩ | ⟨hr, hf⟩
    · subst hr
      have hfb : (flag == some "yes") = false := by simpa using hf
      have hopp : getOppositeRole (some "provider") flag = Option.none := by
        show (if (flag == some "yes") = true then some "consumer" else Option.none) =
          Option.none
        rw [hfb]
        rfl
      rw [hopp]
      rfl
    · subst hr
      subst hf
      rfl

/-- Witness for C4 at a concrete input: profile flag `yes`, a provider
connection-level write propagates to the consumer side. -/
theorem update_owner_direction_witness :
    update
      [("cns/n/orchestrator", "bysystem"),
       ("cns/n/nodes/a/contexts/x/provider/p1/version", "1"),
       ("cns/n/profiles/p1/versions/version1/properties/temp/provider", "yes"),
       ("cns/n/nodes/a/contexts/x/provider/p1/connections/7/consumer",
        "cns/n/nodes/b/contexts/x")]
      "cns/n/nodes/a/contexts/x/provider/p1/connections/7/properties/temp" "21"
    = some ("cns/n/nodes/b/contexts/x/consumer/p1/connections/7/properties/temp", "21") := by
  have h := (update_owner_direction
    [("cns/n/orchestrator", "bysystem"),
     ("cns/n/nodes/a/contexts/x/provider/p1/version", "1"),
     ("cns/n/profiles/p1/versions/version1/properties/temp/provider", "yes"),
     ("cns/n/nodes/a/contexts/x/provider/p1/connections/7/consumer",
      "cns/n/nodes/b/contexts/x")]
    "n" "a" "x" "provider" "p1" "7" "temp" "21" "cns/n/nodes/b/contexts/x" (some "yes")
    (by decide) (by decide) (by decide)).1
    (Or.inl ⟨rfl, rfl⟩) (by decide)
  exact h

/-! ### Lemmas: `propagate` on a well-formed capability-property key -/

theorem propagate_segs (cache : Cache) (key : String)
    (net node ctx role prof p v : String)
    (h : splitKey key =
      ["cns", net, "nodes", node, "contexts", ctx, role, prof, "properties", p]) :
    propagate cache key v =
      (if !isValidMode (lookup cache ("cns/" ++ net ++ "/orchestrator")) then []
       else
         match getOppositeRole (some role)
             (lookup cache ("cns/" ++ net ++ "/profiles/" ++ prof ++ "/versions/version" ++
               jstr (lookup cache ("cns/" ++ net ++ "/nodes/" ++ node ++ "/contexts/" ++ ctx ++
                 "/" ++ role ++ "/" ++ prof ++ "/version")) ++ "/properties/" ++ p ++
               "/provider")) with
         | Option.none => []
         | some opposite =>
           (filter cache ("cns/" ++ net ++ "/nodes/" ++ node ++ "/contexts/" ++ ctx ++ "/" ++
               role ++ "/" ++ prof ++ "/connections/*/" ++ opposite)).map (fun kv =>
             (joinKey ((splitKey kv.1).dropLast ++ ["properties", p]), v))) := by
  dsimp only [propagate]
  rw [h]
  rfl

/-! ### Lemmas: segment shapes of link keys and patterns -/

theorem data_slash : ("/" : String).data = ['/'] := rfl

theorem data_cns : ("cns/" : String).data = "cns".data ++ ['/'] := rfl

theorem data_nodes : ("/nodes/" : String).data = '/' :: ("nodes".data ++ ['/']) := rfl

theorem data_contexts : ("/contexts/" : String).data = '/' :: ("contexts".data ++ ['/']) := rfl

theorem data_conns : ("/connections/" : String).data = '/' :: ("connections".data ++ ['/']) := rfl

theorem data_connstar : ("/connections/*/" : String).data =
    '/' :: ("connections".data ++ '/' :: ("*".data ++ ['/'])) := rfl

theorem data_props : ("/properties/" : String).data = '/' :: ("properties".data ++ ['/']) := rfl

theorem splitKey_link_pat (net node ctx role prof opp : String)
    (hnet : ∀ c ∈ net.data, c ≠ '/') (hnode : ∀ c ∈ node.data, c ≠ '/')
    (hctx : ∀ c ∈ ctx.data, c ≠ '/') (hrole : ∀ c ∈ role.data, c ≠ '/')
    (hprof : ∀ c ∈ prof.data, c ≠ '/') (hopp : ∀ c ∈ opp.data, c ≠ '/') :
    splitKey ("cns/" ++ net ++ "/nodes/" ++ node ++ "/contexts/" ++ ctx ++ "/" ++ role ++
        "/" ++ prof ++ "/connections/*/" ++ opp) =
      ["cns", net, "nodes", node, "contexts", ctx, role, prof, "connections", "*", opp] := by
  have e : "cns/" ++ net ++ "/nodes/" ++ node ++ "/contexts/" ++ ctx ++ "/" ++ role ++
      "/" ++ prof ++ "/connections/*/" ++ opp =
      "cns" ++ "/" ++ (net ++ "/" ++ ("nodes" ++ "/" ++ (node ++ "/" ++ ("contexts" ++ "/" ++
        (ctx ++ "/" ++ (role ++ "/" ++ (prof ++ "/" ++ ("connections" ++ "/" ++ ("*" ++ "/" ++
          opp))))))))) := by
    apply String.ext
    simp [String.data_append, data_cns, data_nodes, data_contexts, data_connstar, data_slash,
      List.append_assoc]
  rw [e]
  simp only [splitKey_append]
  rw [splitKey_plain hnet, splitKey_plain hnode, splitKey_plain hctx, splitKey_plain hrole,
    splitKey_plain hprof, splitKey_plain hopp]
  rfl

theorem splitKey_link_key (net node ctx role prof id opp : String)
    (hnet : ∀ c ∈ net.data, c ≠ '/') (hnode : ∀ c ∈ node.data, c ≠ '/')
    (hctx : ∀ c ∈ ctx.data, c ≠ '/') (hrole : ∀ c ∈ role.data, c ≠ '/')
    (hprof : ∀ c ∈ prof.data, c ≠ '/') (hid : ∀ c ∈ id.data, c ≠ '/')
    (hopp : ∀ c ∈ opp.data, c ≠ '/') :
    splitKey ("cns/" ++ net ++ "/nodes/" ++ node ++ "/contexts/" ++ ctx ++ "/" ++ role ++
        "/" ++ prof ++ "/connections/" ++ id ++ "/" ++ opp) =
      ["cns", net, "nodes", node, "contexts", ctx, role, prof, "connections", id, opp] := by
  have e : "cns/" ++ net ++ "/nodes/" ++ node ++ "/contexts/" ++ ctx ++ "/" ++ role ++
      "/" ++ prof ++ "/connections/" ++ id ++ "/" ++ opp =
      "cns" ++ "/" ++ (net ++ "/" ++ ("nodes" ++ "/" ++ (node ++ "/" ++ ("contexts" ++ "/" ++
        (ctx ++ "/" ++ (role ++ "/" ++ (prof ++ "/" ++ ("connections" ++ "/" ++ (id ++ "/" ++
          opp))))))))) := by
    apply String.ext
    simp [String.data_append, data_cns, data_nodes, data_contexts, data_conns, data_slash,
      List.append_assoc]
  rw [e]
  simp only [splitKey_append]
  rw [splitKey_plain hnet, splitKey_plain hnode, splitKey_plain hctx, splitKey_plain hrole,
    splitKey_plain hprof, splitKey_plain hid, splitKey_plain hopp]
  rfl

theorem joinKey_props_eq (net node ctx role prof id p : String) :
    joinKey ["cns", net, "nodes", node, "contexts", ctx, role, prof, "connections", id,
      "properties", p] =
      "cns/" ++ net ++ "/nodes/" ++ node ++ "/contexts/" ++ ctx ++ "/" ++ role ++ "/" ++ prof ++
        "/connections/" ++ id ++ "/properties/" ++ p := by
  apply String.ext
  simp [joinKey, String.data_append, data_cns, data_nodes, data_contexts, data_conns,
    data_props, data_slash, List.append_assoc]

theorem data_name : ("/name" : String).data = '/' :: "name".data := rfl

theorem data_nodes_star : ("/nodes/*/name" : String).data =
    '/' :: ("nodes".data ++ '/' :: ("*".data ++ '/' :: "name".data)) := rfl

theorem data_ctx_star : ("/contexts/*/name" : String).data =
    '/' :: ("contexts".data ++ '/' :: ("*".data ++ '/' :: "name".data)) := rfl

theorem splitKey_name5 (net node : String)
    (hnet : ∀ c ∈ net.data, c ≠ '/') (hnode : ∀ c ∈ node.data, c ≠ '/') :
    splitKey ("cns/" ++ net ++ "/nodes/" ++ node ++ "/name") =
      ["cns", net, "nodes", node, "name"] := by
  have e : "cns/" ++ net ++ "/nodes/" ++ node ++ "/name" =
      "cns" ++ "/" ++ (net ++ "/" ++ ("nodes" ++ "/" ++ (node ++ "/" ++ "name"))) := by
    apply String.ext
    simp [String.data_append, data_cns, data_nodes, data_name, data_slash, List.append_assoc]
  rw [e]
  simp only [splitKey_append]
  rw [splitKey_plain hnet, splitKey_plain hnode]
  rfl

theorem splitKey_pat5 (net : String) (hnet : ∀ c ∈ net.data, c ≠ '/') :
    splitKey ("cns/" ++ net ++ "/nodes/*/name") = ["cns", net, "nodes", "*", "name"] := by
  have e : "cns/" ++ net ++ "/nodes/*/name" =
      "cns" ++ "/" ++ (net ++ "/" ++ ("nodes" ++ "/" ++ ("*" ++ "/" ++ "name"))) := by
    apply String.ext
    simp [String.data_append, data_cns, data_nodes_star, data_slash, List.append_assoc]
  rw [e]
  simp only [splitKey_append]
  rw [splitKey_plain hnet]
  rfl

theorem splitKey_name7 (net node ctx : String)
    (hnet : ∀ c ∈ net.data, c ≠ '/') (hnode : ∀ c ∈ node.data, c ≠ '/')
    (hctx : ∀ c ∈ ctx.data, c ≠ '/') :
    splitKey ("cns/" ++ net ++ "/nodes/" ++ node ++ "/contexts/" ++ ctx ++ "/name") =
      ["cns", net, "nodes", node, "contexts", ctx, "name"] := by
  have e : "cns/" ++ net ++ "/nodes/" ++ node ++ "/contexts/" ++ ctx ++ "/name" =
      "cns" ++ "/" ++ (net ++ "/" ++ ("nodes" ++ "/" ++ (node ++ "/" ++ ("contexts" ++ "/" ++
        (ctx ++ "/" ++ "name"))))) := by
    apply String.ext
    simp [String.data_append, data_cns, data_nodes, data_contexts, data_name, data_slash,
      List.append_assoc]
  rw [e]
  simp only [splitKey_append]
  rw [splitKey_plain hnet, splitKey_plain hnode, splitKey_plain hctx]
  rfl

theorem splitKey_pat7 (net node : String)
    (hnet : ∀ c ∈ net.data, c ≠ '/') (hnode : ∀ c ∈ node.data, c ≠ '/') :
    splitKey ("cns/" ++ net ++ "/nodes/" ++ node ++ "/contexts/*/name") =
      ["cns", net, "nodes", node, "contexts", "*", "name"] := by
  have e : "cns/" ++ net ++ "/nodes/" ++ node ++ "/contexts/*/name" =
      "cns" ++ "/" ++ (net ++ "/" ++ ("nodes" ++ "/" ++ (node ++ "/" ++ ("contexts" ++ "/" ++
        ("*" ++ "/" ++ "name"))))) := by
    apply String.ext
    simp [String.data_append, data_cns, data_nodes, data_ctx_star, data_slash,
      List.append_assoc]
  rw [e]
  simp only [splitKey_append]
  rw [splitKey_plain hnet, splitKey_plain hnode]
  rfl

theorem compareKey_self (k : String) : compareKey k (splitKey k) = true := by
  rw [compareKey_iff]
  exact List.forall₂_same.2 (fun s _ => jsmatch_self s)

/-! ### Lemmas: segments extracted from keys are well behaved -/

theorem mem_splitChars_subset {sep : Char} :
    ∀ {l seg : List Char}, seg ∈ splitChars sep l → ∀ c ∈ seg, c ∈ l := by
  intro l
  induction l with
  | nil =>
    intro seg hseg c hc
    simp [splitChars] at hseg
    subst hseg
    simp at hc
  | cons a as ih =>
    intro seg hseg c hc
    rw [splitChars_cons] at hseg
    rcases h : splitChars sep as with _ | ⟨s0, rest⟩
    · exact absurd h (splitChars_ne_nil sep as)
    · rw [h] at hseg
      have hseg2 : seg ∈ (if a = sep then [] :: s0 :: rest else (a :: s0) :: rest) := hseg
      by_cases ha : a = sep
      · rw [if_pos ha] at hseg2
        rcases List.mem_cons.1 hseg2 with h1 | h1
        · subst h1; simp at hc
        · exact List.mem_cons_of_mem a (ih (h ▸ h1) c hc)
      · rw [if_neg ha] at hseg2
        rcases List.mem_cons.1 hseg2 with h1 | h1
        · subst h1
          rcases List.mem_cons.1 hc with h2 | h2
          · subst h2; exact List.mem_cons_self _ _
          · exact List.mem_cons_of_mem a
              (ih (h ▸ List.mem_cons_self s0 rest) c h2)
        · exact List.mem_cons_of_mem a (ih (h ▸ List.mem_cons_of_mem s0 h1) c hc)

theorem splitKey_mem_sepfree {k s : String} (h : s ∈ splitKey k) :
    ∀ c ∈ s.data, c ≠ '/' := by
  unfold splitKey at h
  obtain ⟨seg, hseg, hmk⟩ := List.mem_map.1 h
  intro c hc
  rw [← hmk] at hc
  exact mem_splitChars_sepfree hseg c hc

theorem splitKey_mem_good {k s : String}
    (hk : ∀ c ∈ k.data, lineTerm c = false) (h : s ∈ splitKey k) : goodSeg s := by
  unfold splitKey at h
  obtain ⟨seg, hseg, hmk⟩ := List.mem_map.1 h
  intro c hc
  rw [← hmk] at hc
  exact ⟨mem_splitChars_sepfree hseg c hc, hk c (mem_splitChars_subset hseg c hc)⟩

theorem jstrSeg_sepfree (k : String) (i : Nat) :
    ∀ c ∈ (jstr ((splitKey k).get? i)).data, c ≠ '/' := by
  cases h : (splitKey k).get? i with
  | none => decide
  | some s =>
    intro c hc
    exact splitKey_mem_sepfree (List.get?_mem h) c hc

theorem jstrSeg_good (k : String) (i : Nat)
    (hk : ∀ c ∈ k.data, lineTerm c = false) : goodSeg (jstr ((splitKey k).get? i)) := by
  cases h : (splitKey k).get? i with
  | none =>
    show ∀ c ∈ (jstr Option.none).data, c ≠ '/' ∧ lineTerm c = false
    decide
  | some s => exact splitKey_mem_good hk (List.get?_mem h)

/-! ### Lemmas: shapes of the keys `connections(add)` writes -/

theorem data_provider_mid : ("/provider/" : String).data =
    '/' :: ("provider".data ++ ['/']) := rfl

theorem data_consumer_mid : ("/consumer/" : String).data =
    '/' :: ("consumer".data ++ ['/']) := rfl

theorem data_propssl : ("properties/" : String).data = "properties".data ++ ['/'] := rfl

theorem data_connstar_consumer : ("/connections/*/consumer" : String).data =
    '/' :: ("connections".data ++ '/' :: ("*".data ++ '/' :: "consumer".data)) := rfl

theorem data_connstar_provider : ("/connections/*/provider" : String).data =
    '/' :: ("connections".data ++ '/' :: ("*".data ++ '/' :: "provider".data)) := rfl

theorem splitKey_putp_link (a b c prof id : String)
    (ha : ∀ ch ∈ a.data, ch ≠ '/') (hb : ∀ ch ∈ b.data, ch ≠ '/')
    (hc : ∀ ch ∈ c.data, ch ≠ '/') (hprof : ∀ ch ∈ prof.data, ch ≠ '/')
    (hid : ∀ ch ∈ id.data, ch ≠ '/') :
    splitKey ("cns/" ++ a ++ "/nodes/" ++ b ++ "/contexts/" ++ c ++ "/provider/" ++ prof ++
        "/connections/" ++ id ++ "/" ++ "consumer") =
      ["cns", a, "nodes", b, "contexts", c, "provider", prof, "connections", id, "consumer"] := by
  have e : "cns/" ++ a ++ "/nodes/" ++ b ++ "/contexts/" ++ c ++ "/provider/" ++ prof ++
      "/connections/" ++ id ++ "/" ++ "consumer" =
      "cns/" ++ a ++ "/nodes/" ++ b ++ "/contexts/" ++ c ++ "/" ++ "provider" ++ "/" ++ prof ++
      "/connections/" ++ id ++ "/" ++ "consumer" := by
    apply String.ext
    simp [String.data_append, data_provider_mid, data_slash, List.append_assoc]
  rw [e]
  exact splitKey_link_key a b c "provider" prof id "consumer" ha hb hc (by decide) hprof hid
    (by decide)

theorem splitKey_putc_link (a b c prof id : String)
    (ha : ∀ ch ∈ a.data, ch ≠ '/') (hb : ∀ ch ∈ b.data, ch ≠ '/')
    (hc : ∀ ch ∈ c.data, ch ≠ '/') (hprof : ∀ ch ∈ prof.data, ch ≠ '/')
    (hid : ∀ ch ∈ id.data, ch ≠ '/') :
    splitKey ("cns/" ++ a ++ "/nodes/" ++ b ++ "/contexts/" ++ c ++ "/consumer/" ++ prof ++
        "/connections/" ++ id ++ "/" ++ "provider") =
      ["cns", a, "nodes", b, "contexts", c, "consumer", prof, "connections", id, "provider"] := by
  have e : "cns/" ++ a ++ "/nodes/" ++ b ++ "/contexts/" ++ c ++ "/consumer/" ++ prof ++
      "/connections/" ++ id ++ "/" ++ "provider" =
      "cns/" ++ a ++ "/nodes/" ++ b ++ "/contexts/" ++ c ++ "/" ++ "consumer" ++ "/" ++ prof ++
      "/connections/" ++ id ++ "/" ++ "provider" := by
    apply String.ext
    simp [String.data_append, data_consumer_mid, data_slash, List.append_assoc]
  rw [e]
  exact splitKey_link_key a b c "consumer" prof id "provider" ha hb hc (by decide) hprof hid
    (by decide)

theorem splitKey_seg12 (a b c role prof id name : String)
    (ha : ∀ ch ∈ a.data, ch ≠ '/') (hb : ∀ ch ∈ b.data, ch ≠ '/')
    (hc : ∀ ch ∈ c.data, ch ≠ '/') (hrole : ∀ ch ∈ role.data, ch ≠ '/')
    (hprof : ∀ ch ∈ prof.data, ch ≠ '/') (hid : ∀ ch ∈ id.data, ch ≠ '/')
    (hname : ∀ ch ∈ name.data, ch ≠ '/') :
    splitKey ("cns" ++ "/" ++ (a ++ "/" ++ ("nodes" ++ "/" ++ (b ++ "/" ++ ("contexts" ++
        "/" ++ (c ++ "/" ++ (role ++ "/" ++ (prof ++ "/" ++ ("connections" ++ "/" ++ (id ++
        "/" ++ ("properties" ++ "/" ++ name))))))))))) =
      ["cns", a, "nodes", b, "contexts", c, role, prof, "connections", id,
       "properties", name] := by
  simp only [splitKey_append]
  rw [splitKey_plain ha, splitKey_plain hb, splitKey_plain hc, splitKey_plain hrole,
    splitKey_plain hprof, splitKey_plain hid, splitKey_plain hname]
  rfl

theorem splitKey_putp_props (a b c prof id name : String)
    (ha : ∀ ch ∈ a.data, ch ≠ '/') (hb : ∀ ch ∈ b.data, ch ≠ '/')
    (hc : ∀ ch ∈ c.data, ch ≠ '/') (hprof : ∀ ch ∈ prof.data, ch ≠ '/')
    (hid : ∀ ch ∈ id.data, ch ≠ '/') (hname : ∀ ch ∈ name.data, ch ≠ '/') :
    splitKey ("cns/" ++ a ++ "/nodes/" ++ b ++ "/contexts/" ++ c ++ "/provider/" ++ prof ++
        "/connections/" ++ id ++ "/" ++ "properties/" ++ name) =
      ["cns", a, "nodes", b, "contexts", c, "provider", prof, "connections", id,
       "properties", name] := by
  have e : "cns/" ++ a ++ "/nodes/" ++ b ++ "/contexts/" ++ c ++ "/provider/" ++ prof ++
      "/connections/" ++ id ++ "/" ++ "properties/" ++ name =
      "cns" ++ "/" ++ (a ++ "/" ++ ("nodes" ++ "/" ++ (b ++ "/" ++ ("contexts" ++ "/" ++
        (c ++ "/" ++ ("provider" ++ "/" ++ (prof ++ "/" ++ ("connections" ++ "/" ++ (id ++
        "/" ++ ("properties" ++ "/" ++ name)))))))))) := by
    apply String.ext
    simp [String.data_append, data_cns, data_nodes, data_contexts, data_conns,
      data_provider_mid, data_propssl, data_slash, List.append_assoc]
  rw [e]
  exact splitKey_seg12 a b c "provider" prof id name ha hb hc (by decide) hprof hid hname

theorem splitKey_putc_props (a b c prof id name : String)
    (ha : ∀ ch ∈ a.data, ch ≠ '/') (hb : ∀ ch ∈ b.data, ch ≠ '/')
    (hc : ∀ ch ∈ c.data, ch ≠ '/') (hprof : ∀ ch ∈ prof.data, ch ≠ '/')
    (hid : ∀ ch ∈ id.data, ch ≠ '/') (hname : ∀ ch ∈ name.data, ch ≠ '/') :
    splitKey ("cns/" ++ a ++ "/nodes/" ++ b ++ "/contexts/" ++ c ++ "/consumer/" ++ prof ++
        "/connections/" ++ id ++ "/" ++ "properties/" ++ name) =
      ["cns", a, "nodes", b, "contexts", c, "consumer", prof, "connections", id,
       "properties", name] := by
  have e : "cns/" ++ a ++ "/nodes/" ++ b ++ "/contexts/" ++ c ++ "/consumer/" ++ prof ++
      "/connections/" ++ id ++ "/" ++ "properties/" ++ name =
      "cns" ++ "/" ++ (a ++ "/" ++ ("nodes" ++ "/" ++ (b ++ "/" ++ ("contexts" ++ "/" ++
        (c ++ "/" ++ ("consumer" ++ "/" ++ (prof ++ "/" ++ ("connections" ++ "/" ++ (id ++
        "/" ++ ("properties" ++ "/" ++ name)))))))))) := by
    apply String.ext
    simp [String.data_append, data_cns, data_nodes, data_contexts, data_conns,
      data_consumer_mid, data_propssl, data_slash, List.append_assoc]
  rw [e]
  exact splitKey_seg12 a b c "consumer" prof id name ha hb hc (by decide) hprof hid hname

theorem splitKey_provpat (a b c prof : String)
    (ha : ∀ ch ∈ a.data, ch ≠ '/') (hb : ∀ ch ∈ b.data, ch ≠ '/')
    (hc : ∀ ch ∈ c.data, ch ≠ '/') (hprof : ∀ ch ∈ prof.data, ch ≠ '/') :
    splitKey ("cns/" ++ a ++ "/nodes/" ++ b ++ "/contexts/" ++ c ++ "/provider/" ++ prof ++
        "/connections/*/consumer") =
      ["cns", a, "nodes", b, "contexts", c, "provider", prof, "connections", "*",
       "consumer"] := by
  have e : "cns/" ++ a ++ "/nodes/" ++ b ++ "/contexts/" ++ c ++ "/provider/" ++ prof ++
      "/connections/*/consumer" =
      "cns/" ++ a ++ "/nodes/" ++ b ++ "/contexts/" ++ c ++ "/" ++ "provider" ++ "/" ++ prof ++
      "/connections/*/" ++ "consumer" := by
    apply String.ext
    simp [String.data_append, data_provider_mid, data_connstar_consumer, data_connstar,
      data_slash, List.append_assoc]
  rw [e]
  exact splitKey_link_pat a b c "provider" prof "consumer" ha hb hc (by decide) hprof
    (by decide)

theorem splitKey_conspat (a b c prof : String)
    (ha : ∀ ch ∈ a.data, ch ≠ '/') (hb : ∀ ch ∈ b.data, ch ≠ '/')
    (hc : ∀ ch ∈ c.data, ch ≠ '/') (hprof : ∀ ch ∈ prof.data, ch ≠ '/') :
    splitKey ("cns/" ++ a ++ "/nodes/" ++ b ++ "/contexts/" ++ c ++ "/consumer/" ++ prof ++
        "/connections/*/provider") =
      ["cns", a, "nodes", b, "contexts", c, "consumer", prof, "connections", "*",
       "provider"] := by
  have e : "cns/" ++ a ++ "/nodes/" ++ b ++ "/contexts/" ++ c ++ "/consumer/" ++ prof ++
      "/connections/*/provider" =
      "cns/" ++ a ++ "/nodes/" ++ b ++ "/contexts/" ++ c ++ "/" ++ "consumer" ++ "/" ++ prof ++
      "/connections/*/" ++ "provider" := by
    apply String.ext
    simp [String.data_append, data_consumer_mid, data_connstar_provider, data_connstar,
      data_slash, List.append_assoc]
  rw [e]
  exact splitKey_link_pat a b c "consumer" prof "provider" ha hb hc (by decide) hprof
    (by decide)

theorem data_version : ("/version" : String).data = '/' :: "version".data := rfl

theorem data_orch : ("/orchestrator" : String).data = '/' :: "orchestrator".data := rfl

theorem data_provstar : ("/provider/*/version" : String).data =
    '/' :: ("provider".data ++ '/' :: ("*".data ++ '/' :: "version".data)) := rfl

theorem splitKey_orch (net : String) (hnet : ∀ c ∈ net.data, c ≠ '/') :
    splitKey ("cns/" ++ net ++ "/orchestrator") = ["cns", net, "orchestrator"] := by
  have e : "cns/" ++ net ++ "/orchestrator" =
      "cns" ++ "/" ++ (net ++ "/" ++ "orchestrator") := by
    apply String.ext
    simp [String.data_append, data_cns, data_orch, data_slash, List.append_assoc]
  rw [e]
  simp only [splitKey_append]
  rw [splitKey_plain hnet]
  rfl

theorem splitKey_pvpat (a b c : String)
    (ha : ∀ ch ∈ a.data, ch ≠ '/') (hb : ∀ ch ∈ b.data, ch ≠ '/')
    (hc : ∀ ch ∈ c.data, ch ≠ '/') :
    splitKey ("cns/" ++ a ++ "/nodes/" ++ b ++ "/contexts/" ++ c ++ "/provider/*/version") =
      ["cns", a, "nodes", b, "contexts", c, "provider", "*", "version"] := by
  have e : "cns/" ++ a ++ "/nodes/" ++ b ++ "/contexts/" ++ c ++ "/provider/*/version" =
      "cns" ++ "/" ++ (a ++ "/" ++ ("nodes" ++ "/" ++ (b ++ "/" ++ ("contexts" ++ "/" ++
        (c ++ "/" ++ ("provider" ++ "/" ++ ("*" ++ "/" ++ "version"))))))) := by
    apply String.ext
    simp [String.data_append, data_cns, data_nodes, data_contexts, data_provstar, data_slash,
      List.append_assoc]
  rw [e]
  simp only [splitKey_append]
  rw [splitKey_plain ha, splitKey_plain hb, splitKey_plain hc]
  rfl

theorem splitKey_cvpat (a b c prof : String)
    (ha : ∀ ch ∈ a.data, ch ≠ '/') (hb : ∀ ch ∈ b.data, ch ≠ '/')
    (hc : ∀ ch ∈ c.data, ch ≠ '/') (hprof : ∀ ch ∈ prof.data, ch ≠ '/') :
    splitKey ("cns/" ++ a ++ "/nodes/" ++ b ++ "/contexts/" ++ c ++ "/consumer/" ++ prof ++
        "/version") =
      ["cns", a, "nodes", b, "contexts", c, "consumer", prof, "version"] := by
  have e : "cns/" ++ a ++ "/nodes/" ++ b ++ "/contexts/" ++ c ++ "/consumer/" ++ prof ++
      "/version" =
      "cns" ++ "/" ++ (a ++ "/" ++ ("nodes" ++ "/" ++ (b ++ "/" ++ ("contexts" ++ "/" ++
        (c ++ "/" ++ ("consumer" ++ "/" ++ (prof ++ "/" ++ "version"))))))) := by
    apply String.ext
    simp [String.data_append, data_cns, data_nodes, data_contexts, data_consumer_mid,
      data_version, data_slash, List.append_assoc]
  rw [e]
  simp only [splitKey_append]
  rw [splitKey_plain ha, splitKey_plain hb, splitKey_plain hc, splitKey_plain hprof]
  rfl

/-! ### Lemmas: `filter` and `lookup` ignore writes whose keys have a
different segment count -/

theorem filter_cons_true {α : Type} (p : α → Bool) (a : α) (l : List α) (h : p a = true) :
    (a :: l).filter p = a :: l.filter p := by
  simp [List.filter_cons, h]

theorem filter_cons_false {α : Type} (p : α → Bool) (a : α) (l : List α) (h : p a = false) :
    (a :: l).filter p = l.filter p := by
  simp [List.filter_cons, h]

theorem filter_map_repl (m : Cache) (k v : String) (pat : List String)
    (hk : compareKey k pat = false) :
    (m.map (fun kv => if kv.1 == k then (k, v) else kv)).filter
      (fun kv => compareKey kv.1 pat) = m.filter (fun kv => compareKey kv.1 pat) := by
  induction m with
  | nil => rfl
  | cons ab m ih =>
    obtain ⟨a, b⟩ := ab
    simp only [List.map_cons]
    by_cases hak : a = k
    · subst hak
      rw [if_pos (by simp)]
      rw [filter_cons_false _ _ _ (by simpa using hk),
        filter_cons_false _ _ _ (by simpa using hk)]
      exact ih
    · rw [if_neg (by simpa using hak)]
      cases hcmp : compareKey a pat with
      | true =>
        rw [filter_cons_true _ _ _ (by simpa using hcmp),
          filter_cons_true _ _ _ (by simpa using hcmp), ih]
      | false =>
        rw [filter_cons_false _ _ _ (by simpa using hcmp),
          filter_cons_false _ _ _ (by simpa using hcmp)]
        exact ih

theorem filter_jsSet_ne (m : Cache) (k v : String) (pat : List String)
    (hk : compareKey k pat = false) :
    (jsSet m k v).filter (fun kv => compareKey kv.1 pat) =
      m.filter (fun kv => compareKey kv.1 pat) := by
  unfold jsSet
  by_cases h : m.any (fun kv => kv.1 == k) = true
  · rw [if_pos h]
    exact filter_map_repl m k v pat hk
  · rw [if_neg h, List.filter_append]
    rw [show List.filter (fun kv => compareKey kv.1 pat) [(k, v)] = [] from by
      rw [List.filter_cons_of_neg (by simpa using hk)]
      rfl]
    simp

theorem filter_applyPuts_stable (puts : List (String × String)) :
    ∀ (cache : Cache) (patS : String),
      (∀ kv ∈ puts, compareKey kv.1 (splitKey patS) = false) →
      filter (applyPuts cache puts) patS = filter cache patS := by
  induction puts with
  | nil => intro cache patS _; rfl
  | cons p rest ih =>
    intro cache patS h
    obtain ⟨q, w⟩ := p
    show filter (applyPuts (jsSet cache q w) rest) patS = _
    rw [ih _ _ (fun kv hkv => h kv (List.mem_cons_of_mem _ hkv))]
    exact filter_jsSet_ne cache q w _ (h (q, w) (List.mem_cons_self _ _))

theorem lookup_applyPuts_ne (puts : List (String × String)) :
    ∀ (cache : Cache) (q : String),
      (∀ kv ∈ puts, kv.1 ≠ q) → lookup (applyPuts cache puts) q = lookup cache q := by
  induction puts with
  | nil => intro cache q _; rfl
  | cons p rest ih =>
    intro cache q h
    obtain ⟨q0, w0⟩ := p
    show lookup (applyPuts (jsSet cache q0 w0) rest) q = _
    rw [ih _ _ (fun kv hkv => h kv (List.mem_cons_of_mem _ hkv)), lookup_jsSet,
      if_neg (fun hh => h (q0, w0) (List.mem_cons_self _ _) hh.symm)]

/-! ### Lemmas: membership through `jsSet` and `applyPuts` -/

theorem mem_jsSet_self (m : Cache) (k v : String) : (k, v) ∈ jsSet m k v := by
  unfold jsSet
  by_cases h : m.any (fun kv => kv.1 == k) = true
  · rw [if_pos h]
    obtain ⟨kv, hkv, hk⟩ := List.any_eq_true.1 h
    refine List.mem_map.2 ⟨kv, hkv, ?_⟩
    rw [if_pos hk]
  · rw [if_neg h]
    simp

theorem mem_jsSet_of_ne (m : Cache) (key value k v : String)
    (hm : (k, v) ∈ m) (hne : k ≠ key) : (k, v) ∈ jsSet m key value := by
  unfold jsSet
  by_cases h : m.any (fun kv => kv.1 == key) = true
  · rw [if_pos h]
    refine List.mem_map.2 ⟨(k, v), hm, ?_⟩
    rw [if_neg (by simpa using hne)]
  · rw [if_neg h]
    exact List.mem_append_left _ hm

theorem mem_applyPuts_preserved :
    ∀ (puts : List (String × String)) (cache : Cache) (k v : String),
      (k, v) ∈ cache → (∀ kv ∈ puts, kv.1 = k → kv.2 = v) →
      (k, v) ∈ applyPuts cache puts := by
  intro puts
  induction puts with
  | nil => intro cache k v hm _; exact hm
  | cons p rest ih =>
    intro cache k v hm hcons
    obtain ⟨q, w⟩ := p
    show (k, v) ∈ applyPuts (jsSet cache q w) rest
    by_cases hq : q = k
    · subst hq
      have hw : w = v := hcons (q, w) (List.mem_cons_self _ _) rfl
      subst hw
      exact ih _ _ _ (mem_jsSet_self cache q w)
        (fun kv hkv => hcons kv (List.mem_cons_of_mem _ hkv))
    · exact ih _ _ _ (mem_jsSet_of_ne cache q w k v hm (fun hh => hq hh.symm))
        (fun kv hkv => hcons kv (List.mem_cons_of_mem _ hkv))

theorem mem_applyPuts_of_put :
    ∀ (puts : List (String × String)) (cache : Cache) (q w : String),
      (q, w) ∈ puts →
      (∀ kv ∈ puts, ∀ kv2 ∈ puts, kv.1 = kv2.1 → kv.2 = kv2.2) →
      (q, w) ∈ applyPuts cache puts := by
  intro puts
  induction puts with
  | nil => intro cache q w hm _; simp at hm
  | cons p rest ih =>
    intro cache q w hm hcf
    obtain ⟨q0, w0⟩ := p
    show (q, w) ∈ applyPuts (jsSet cache q0 w0) rest
    rcases List.mem_cons.1 hm with h1 | h1
    · obtain ⟨hq, hw⟩ := Prod.mk.injEq .. ▸ h1
      subst hq
      subst hw
      refine mem_applyPuts_preserved rest (jsSet cache q w) q w (mem_jsSet_self cache q w) ?_
      intro kv hkv hkey
      exact hcf kv (List.mem_cons_of_mem _ hkv) (q, w) (List.mem_cons_self _ _) hkey
    · exact ih _ _ _ h1
        (fun kv hkv kv2 hkv2 => hcf kv (List.mem_cons_of_mem _ hkv) kv2
          (List.mem_cons_of_mem _ hkv2))

theorem flatMap_congr {α β : Type} {l : List α} {f g : α → List β}
    (h : ∀ a ∈ l, f a = g a) : l.flatMap f = l.flatMap g := by
  induction l with
  | nil => rfl
  | cons a as ih =>
    simp only [List.flatMap_cons]
    rw [h a (List.mem_cons_self _ _), ih (fun x hx => h x (List.mem_cons_of_mem _ hx))]

theorem connectionsOne_skip (cache : Cache) (g : String) (c : Cand)
    (h1 : ∃ kv ∈ filter cache
      (c.provider ++ "/provider/" ++ c.profile ++ "/connections/*/consumer"),
      kv.2 = c.consumer)
    (h2 : ∃ kv ∈ filter cache
      (c.consumer ++ "/consumer/" ++ c.profile ++ "/connections/*/provider"),
      kv.2 = c.provider) :
    connectionsOne cache g c = ([], false) := by
  obtain ⟨fp, hfp⟩ : ∃ y, (filter cache
      (c.provider ++ "/provider/" ++ c.profile ++ "/connections/*/consumer")).find?
      (fun kv => kv.2 == c.consumer) = some y := by
    rw [← Option.isSome_iff_exists, List.find?_isSome]
    obtain ⟨kv, hkv, hv⟩ := h1
    exact ⟨kv, hkv, by simpa using hv⟩
  obtain ⟨fc, hfc⟩ : ∃ y, (filter cache
      (c.consumer ++ "/consumer/" ++ c.profile ++ "/connections/*/provider")).find?
      (fun kv => kv.2 == c.provider) = some y := by
    rw [← Option.isSome_iff_exists, List.find?_isSome]
    obtain ⟨kv, hkv, hv⟩ := h2
    exact ⟨kv, hkv, by simpa using hv⟩
  dsimp only [connectionsOne]
  rw [hfp, hfc]
  rfl

/-! ### Claim C5 -/

/-- Claim C5: for every capability-level default property write
`.../{role}/{profile}/properties/{p}` of value `v` at the owning role
(per the profile flag), `propagate` puts `v` at
`ns/connections/{id}/properties/{p}` for every cache key matching
`ns/connections/*/{opposite}`: the first conjunct says the puts are
exactly one per matching cache entry (so N existing connections receive
N puts), and the second that every well-formed connection link entry of
the capability receives the put for its id. -/
theorem propagate_to_all_connections (cache : Cache)
    (net node ctx role prof p v : String) (flag : Option String)
    (hsegs : ∀ s ∈ [net, node, ctx, role, prof, p], goodSeg s)
    (hmode : isValidMode (lookup cache ("cns/" ++ net ++ "/orchestrator")) = true)
    (hflag : lookup cache ("cns/" ++ net ++ "/profiles/" ++ prof ++ "/versions/version" ++
      jstr (lookup cache ("cns/" ++ net ++ "/nodes/" ++ node ++ "/contexts/" ++ ctx ++ "/" ++
        role ++ "/" ++ prof ++ "/version")) ++ "/properties/" ++ p ++ "/provider") = flag)
    (hown : (role = "provider" ∧ flag = some "yes") ∨ (role = "consumer" ∧ flag ≠ some "yes")) :
    propagate cache (joinKey ["cns", net, "nodes", node, "contexts", ctx, role, prof,
        "properties", p]) v =
      (filter cache ("cns/" ++ net ++ "/nodes/" ++ node ++ "/contexts/" ++ ctx ++ "/" ++ role ++
          "/" ++ prof ++ "/connections/*/" ++ oppRole role)).map (fun kv =>
        (joinKey ((splitKey kv.1).dropLast ++ ["properties", p]), v)) ∧
    (∀ id w, goodSeg id →
      ("cns/" ++ net ++ "/nodes/" ++ node ++ "/contexts/" ++ ctx ++ "/" ++ role ++ "/" ++
        prof ++ "/connections/" ++ id ++ "/" ++ oppRole role, w) ∈ cache →
      ("cns/" ++ net ++ "/nodes/" ++ node ++ "/contexts/" ++ ctx ++ "/" ++ role ++ "/" ++
        prof ++ "/connections/" ++ id ++ "/properties/" ++ p, v) ∈
        propagate cache (joinKey ["cns", net, "nodes", node, "contexts", ctx, role, prof,
          "properties", p]) v) := by
  have hnet := hsegs net (by simp)
  have hnode := hsegs node (by simp)
  have hctx := hsegs ctx (by simp)
  have hrole := hsegs role (by simp)
  have hprof := hsegs prof (by simp)
  have hp := hsegs p (by simp)
  have hnet1 : ∀ c ∈ net.data, c ≠ '/' := fun c hc => (hnet c hc).1
  have hnode1 : ∀ c ∈ node.data, c ≠ '/' := fun c hc => (hnode c hc).1
  have hctx1 : ∀ c ∈ ctx.data, c ≠ '/' := fun c hc => (hctx c hc).1
  have hrole1 : ∀ c ∈ role.data, c ≠ '/' := fun c hc => (hrole c hc).1
  have hprof1 : ∀ c ∈ prof.data, c ≠ '/' := fun c hc => (hprof c hc).1
  have hp1 : ∀ c ∈ p.data, c ≠ '/' := fun c hc => (hp c hc).1
  have hks : splitKey (joinKey ["cns", net, "nodes", node, "contexts", ctx, role, prof,
      "properties", p]) =
      ["cns", net, "nodes", node, "contexts", ctx, role, prof, "properties", p] := by
    apply splitKey_join_sepfree _ (by simp)
    intro s hs
    simp only [List.mem_cons] at hs
    rcases hs with rfl | rfl | rfl | rfl | rfl | rfl | rfl | rfl | rfl | rfl | hs
    · decide
    · exact hnet1
    · decide
    · exact hnode1
    · decide
    · exact hctx1
    · exact hrole1
    · exact hprof1
    · decide
    · exact hp1
    · simp at hs
  have hmain : propagate cache (joinKey ["cns", net, "nodes", node, "contexts", ctx, role,
      prof, "properties", p]) v =
      (filter cache ("cns/" ++ net ++ "/nodes/" ++ node ++ "/contexts/" ++ ctx ++ "/" ++ role ++
        "/" ++ prof ++ "/connections/*/" ++ oppRole role)).map (fun kv =>
        (joinKey ((splitKey kv.1).dropLast ++ ["properties", p]), v)) := by
    rw [propagate_segs cache _ net node ctx role prof p v hks, hmode, hflag]
    rcases hown with ⟨hr, hf⟩ | ⟨hr, hf⟩
    · subst hr
      subst hf
      rfl
    · subst hr
      have hfb : (flag == some "yes") = false := by simpa using hf
      have hopp : getOppositeRole (some "consumer") flag = some "provider" := by
        show (if (flag == some "yes") = true then Option.none else some "provider") =
          some "provider"
        rw [hfb]
        rfl
      rw [hopp]
      rfl
  refine ⟨hmain, ?_⟩
  intro id w hid hmem
  rw [hmain]
  have hid1 : ∀ c ∈ id.data, c ≠ '/' := fun c hc => (hid c hc).1
  have hoppsep : ∀ c ∈ (oppRole role).data, c ≠ '/' := by
    unfold oppRole
    by_cases hr : role = "provider" <;> simp [hr]
  have hkk := splitKey_link_key net node ctx role prof id (oppRole role)
    hnet1 hnode1 hctx1 hrole1 hprof1 hid1 hoppsep
  have hpat := splitKey_link_pat net node ctx role prof (oppRole role)
    hnet1 hnode1 hctx1 hrole1 hprof1 hoppsep
  refine List.mem_map.2 ⟨("cns/" ++ net ++ "/nodes/" ++ node ++ "/contexts/" ++ ctx ++ "/" ++
    role ++ "/" ++ prof ++ "/connections/" ++ id ++ "/" ++ oppRole role, w), ?_, ?_⟩
  · refine (mem_filter_iff _ _ _).2 ⟨hmem, ?_⟩
    rw [compareKey_iff, hkk, hpat]
    exact .cons (jsmatch_self _) (.cons (jsmatch_self _) (.cons (jsmatch_self _)
      (.cons (jsmatch_self _) (.cons (jsmatch_self _) (.cons (jsmatch_self _)
      (.cons (jsmatch_self _) (.cons (jsmatch_self _) (.cons (jsmatch_self _)
      (.cons ((jsmatch_star id).2 (fun c hc => (hid c hc).2))
      (.cons (jsmatch_self _) .nil))))))))))
  · show (joinKey ((splitKey ("cns/" ++ net ++ "/nodes/" ++ node ++ "/contexts/" ++ ctx ++
      "/" ++ role ++ "/" ++ prof ++ "/connections/" ++ id ++ "/" ++ oppRole role)).dropLast ++
      ["properties", p]), v) = _
    rw [hkk]
    show (joinKey ["cns", net, "nodes", node, "contexts", ctx, role, prof, "connections", id,
      "properties", p], v) = _
    rw [joinKey_props_eq]

/-- Witness for C5 at a concrete input: a provider-owned property with
two existing connections receives both connection-level puts. -/
theorem propagate_to_all_connections_witness :
    propagate cachePropagate "cns/n/nodes/a/contexts/x/provider/p1/properties/temp" "33" =
      [("cns/n/nodes/a/contexts/x/provider/p1/connections/c1/properties/temp", "33"),
       ("cns/n/nodes/a/contexts/x/provider/p1/connections/c2/properties/temp", "33")] :=
  ((propagate_to_all_connections cachePropagate "n" "a" "x" "provider" "p1" "temp" "33"
    (some "yes")
    (by intro s hs; intro c hc; revert hs; simp only [List.mem_cons]
        rintro (rfl | rfl | rfl | rfl | rfl | rfl | h) <;> first | (revert c hc; decide) | simp_all
        )
    (by decide) (by decide) (Or.inl ⟨rfl, rfl⟩)).1).trans (by decide)

/-! ### Claim C1 -/

/-- Claim C1: for every candidate pair sharing profile and version that
the matchmaker emits, after `connections()` processes it against a cache
containing neither side's record (no provider-side entry holding the
candidate's consumer prefix and no consumer-side entry holding the
provider prefix), the issued puts create both the provider-side key
`{provider}/provider/{profile}/connections/{id}/consumer` with the
consumer endpoint prefix as value and the consumer-side key
`{consumer}/consumer/{profile}/connections/{id}/provider` with the
provider endpoint prefix as value, with the same id (the freshly
generated one) in both keys. -/
theorem connections_made_for_new_pair (cache : Cache) (freshId : String) (c : Cand)
    (h1 : ∀ kv ∈ filter cache
        (c.provider ++ "/provider/" ++ c.profile ++ "/connections/*/consumer"),
      kv.2 ≠ c.consumer)
    (h2 : ∀ kv ∈ filter cache
        (c.consumer ++ "/consumer/" ++ c.profile ++ "/connections/*/provider"),
      kv.2 ≠ c.provider) :
    (c.provider ++ "/provider/" ++ c.profile ++ "/connections/" ++ freshId ++ "/consumer",
      c.consumer) ∈ (connectionsOne cache freshId c).1 ∧
    (c.consumer ++ "/consumer/" ++ c.profile ++ "/connections/" ++ freshId ++ "/provider",
      c.provider) ∈ (connectionsOne cache freshId c).1 := by
  have hfp : (filter cache
      (c.provider ++ "/provider/" ++ c.profile ++ "/connections/*/consumer")).find?
      (fun kv => kv.2 == c.consumer) = Option.none := by
    apply List.find?_eq_none.2
    intro kv hkv
    simpa using h1 kv hkv
  have hfc : (filter cache
      (c.consumer ++ "/consumer/" ++ c.profile ++ "/connections/*/provider")).find?
      (fun kv => kv.2 == c.provider) = Option.none := by
    apply List.find?_eq_none.2
    intro kv hkv
    simpa using h2 kv hkv
  have ep : c.provider ++ "/provider/" ++ c.profile ++ "/connections/" ++ freshId ++ "/" ++
      "consumer" =
      c.provider ++ "/provider/" ++ c.profile ++ "/connections/" ++ freshId ++ "/consumer" := by
    rw [str_append_assoc]
    rfl
  have ec : c.consumer ++ "/consumer/" ++ c.profile ++ "/connections/" ++ freshId ++ "/" ++
      "provider" =
      c.consumer ++ "/consumer/" ++ c.profile ++ "/connections/" ++ freshId ++ "/provider" := by
    rw [str_append_assoc]
    rfl
  dsimp only [connectionsOne]
  rw [hfp, hfc]
  constructor
  · rw [← ep]
    exact List.mem_append_left _ (List.mem_cons_self _ _)
  · rw [← ec]
    exact List.mem_append_right _ (List.mem_cons_self _ _)

/-! ### Claim C7 -/

/-- Claim C7 as stated is false on the code: the claim's glob semantics
let `*` match any (possibly empty) character sequence within a segment,
but the compiled regular expression uses `.*`, and JavaScript's `.` does
not match line terminators.  At the map `{"a\nb" ↦ "v"}` and pattern
`"*"` the claimed filter keeps the entry while the code's filter drops
it. -/
theorem filter_wildcard_counterexample :
    filter [("a\nb", "v")] "*" = [] ∧
    claimedFilter [("a\nb", "v")] "*" = [("a\nb", "v")] ∧
    filter [("a\nb", "v")] "*" ≠ claimedFilter [("a\nb", "v")] "*" := by
  refine ⟨by decide, by decide, by decide⟩

/-- Claim C7 as amended: `filter(M, pattern)` returns exactly the
entries of `M` whose key has the same segment count as the pattern and
whose every segment matches the corresponding pattern segment under glob
semantics — `*` matching any (possibly empty) sequence of
non-line-terminator characters, every other character literal,
case-insensitively — with values unchanged.  `KeyMatch` is the
declarative statement of that semantics. -/
theorem filter_exactly_matching (M : Cache) (pat : String) (kv : String × String) :
    kv ∈ filter M pat ↔ kv ∈ M ∧ KeyMatch kv.1 pat := by
  rw [mem_filter_iff, compareKey_KeyMatch]

/-! ### Claim C2 -/

/-- Claim C2: the per-network matcher `bysystem` appends a candidate
exactly for those consumer endpoints whose context name equals the
provider's context (the scope) and whose `.../consumer/{profile}/version`
value equals the provider's version.  First conjunct (completeness): a
consumer capability in a context named like the scope, with the matching
version value, yields the candidate.  Second conjunct (soundness): every
emitted candidate carries the given provider/profile/version, its
consumer endpoint sits in a context named exactly like the scope, and
some cache entry matching `{consumer}/consumer/{profile}/version` holds
the provider's version.  Third conjunct (scenario S2): when the only
consumer of the matching profile and version sits in a differently named
context, no candidate is emitted and a full build writes no keys. -/
theorem bysystem_scope_rule :
    (∀ (cache : Cache) (net provider prof version node ctx nv cv : String),
      goodSeg net → goodSeg node → goodSeg ctx → (∀ c ∈ prof.data, c ≠ '/') →
      ("cns/" ++ net ++ "/nodes/" ++ node ++ "/name", nv) ∈ cache →
      ("cns/" ++ net ++ "/nodes/" ++ node ++ "/contexts/" ++ ctx ++ "/name", cv) ∈ cache →
      ("cns/" ++ net ++ "/nodes/" ++ node ++ "/contexts/" ++ ctx ++ "/consumer/" ++ prof ++
        "/version", version) ∈ cache →
      (⟨provider, "cns/" ++ net ++ "/nodes/" ++ node ++ "/contexts/" ++ ctx, prof, version⟩ :
        Cand) ∈ bysystem cache net provider prof version ctx) ∧
    (∀ (cache : Cache) (net provider prof version scope : String) (cd : Cand),
      cd ∈ bysystem cache net provider prof version scope →
      cd.provider = provider ∧ cd.profile = prof ∧ cd.version = version ∧
      (∃ node, cd.consumer = "cns/" ++ net ++ "/nodes/" ++ node ++ "/contexts/" ++ scope) ∧
      (∃ k, (k, version) ∈
        filter cache (cd.consumer ++ "/consumer/" ++ prof ++ "/version"))) ∧
    (bysystem cacheMismatch "n" "cns/n/nodes/a/contexts/x" "p1" "1" "x" = [] ∧
      buildPuts cacheMismatch (fun _ => "j1") = []) := by
  refine ⟨?_, ?_, by decide, by decide⟩
  · intro cache net provider prof version node ctx nv cv hgnet hgnode hgctx hprof hn hc hv
    have hnet1 : ∀ c ∈ net.data, c ≠ '/' := fun c hc2 => (hgnet c hc2).1
    have hnode1 : ∀ c ∈ node.data, c ≠ '/' := fun c hc2 => (hgnode c hc2).1
    have hctx1 : ∀ c ∈ ctx.data, c ≠ '/' := fun c hc2 => (hgctx c hc2).1
    unfold bysystem
    refine List.mem_flatMap.2 ⟨("cns/" ++ net ++ "/nodes/" ++ node ++ "/name", nv), ?_, ?_⟩
    · refine (mem_filter_iff _ _ _).2 ⟨hn, ?_⟩
      rw [compareKey_iff, splitKey_name5 net node hnet1 hnode1, splitKey_pat5 net hnet1]
      exact .cons (jsmatch_self _) (.cons (jsmatch_self _) (.cons (jsmatch_self _)
        (.cons ((jsmatch_star node).2 (fun c hc2 => (hgnode c hc2).2))
        (.cons (jsmatch_self _) .nil))))
    · have hn3 : (splitKey ("cns/" ++ net ++ "/nodes/" ++ node ++ "/name")).get? 3 =
          some node := by
        rw [splitKey_name5 net node hnet1 hnode1]
        rfl
      rw [hn3]
      refine List.mem_flatMap.2
        ⟨("cns/" ++ net ++ "/nodes/" ++ node ++ "/contexts/" ++ ctx ++ "/name", cv), ?_, ?_⟩
      · refine (mem_filter_iff _ _ _).2 ⟨hc, ?_⟩
        have hp : compareKey
            ("cns/" ++ net ++ "/nodes/" ++ node ++ "/contexts/" ++ ctx ++ "/name")
            (splitKey ("cns/" ++ net ++ "/nodes/" ++ node ++ "/contexts/*/name")) = true := by
          rw [compareKey_iff, splitKey_name7 net node ctx hnet1 hnode1 hctx1,
            splitKey_pat7 net node hnet1 hnode1]
          exact .cons (jsmatch_self _) (.cons (jsmatch_self _) (.cons (jsmatch_self _)
            (.cons (jsmatch_self _) (.cons (jsmatch_self _)
            (.cons ((jsmatch_star ctx).2 (fun c hc2 => (hgctx c hc2).2))
            (.cons (jsmatch_self _) .nil))))))
        exact hp
      · have hc5 : (splitKey ("cns/" ++ net ++ "/nodes/" ++ node ++ "/contexts/" ++ ctx ++
            "/name")).get? 5 = some ctx := by
          rw [splitKey_name7 net node ctx hnet1 hnode1 hctx1]
          rfl
        rw [hc5]
        have hbeq : (some ctx == some ctx) = true := by simp
        rw [if_pos hbeq]
        refine List.mem_filterMap.2
          ⟨("cns/" ++ net ++ "/nodes/" ++ node ++ "/contexts/" ++ ctx ++ "/consumer/" ++
            prof ++ "/version", version), ?_, ?_⟩
        · refine (mem_filter_iff _ _ _).2 ⟨hv, ?_⟩
          exact compareKey_self _
        · have hveq : (version == version) = true := by simp
          rw [if_pos hveq]
          rfl
  · intro cache net provider prof version scope cd hmem
    unfold bysystem at hmem
    obtain ⟨nkv, _, hmem2⟩ := List.mem_flatMap.1 hmem
    obtain ⟨ckv, _, hmem3⟩ := List.mem_flatMap.1 hmem2
    by_cases hctx : (((splitKey ckv.1).get? 5) == some scope) = true
    · rw [if_pos hctx] at hmem3
      obtain ⟨vkv, hvmem, hveq⟩ := List.mem_filterMap.1 hmem3
      by_cases hvv : (vkv.2 == version) = true
      · rw [if_pos hvv] at hveq
        have hcd : cd = ⟨provider,
            "cns/" ++ net ++ "/nodes/" ++ jstr ((splitKey nkv.1).get? 3) ++ "/contexts/" ++
              jstr ((splitKey ckv.1).get? 5), prof, version⟩ := by
          exact (Option.some.injEq _ _ ▸ hveq).symm
        have hscope : jstr ((splitKey ckv.1).get? 5) = scope := by
          have := beq_iff_eq.1 hctx
          rw [this]
          rfl
        refine ⟨by rw [hcd], by rw [hcd], by rw [hcd], ?_, ?_⟩
        · refine ⟨jstr ((splitKey nkv.1).get? 3), ?_⟩
          rw [hcd, hscope]
        · refine ⟨vkv.1, ?_⟩
          have hv2 : vkv.2 = version := beq_iff_eq.1 hvv
          have : (vkv.1, vkv.2) ∈ filter cache
              ("cns/" ++ net ++ "/nodes/" ++ jstr ((splitKey nkv.1).get? 3) ++ "/contexts/" ++
                jstr ((splitKey ckv.1).get? 5) ++ "/consumer/" ++ prof ++ "/version") := by
            simpa using hvmem
          rw [hv2] at this
          rw [hcd]
          exact this
      · rw [if_neg hvv] at hveq
        exact absurd hveq (by simp)
    · rw [if_neg hctx] at hmem3
      simp at hmem3

/-- Witness for C1 at a concrete input: the empty cache holds neither
side's record, and both links are created with the fresh id. -/
theorem connections_made_for_new_pair_witness :
    ("P/provider/p1/connections/J/consumer", "C")
        ∈ (connectionsOne [] "J" ⟨"P", "C", "p1", "1"⟩).1 ∧
    ("C/consumer/p1/connections/J/provider", "P")
        ∈ (connectionsOne [] "J" ⟨"P", "C", "p1", "1"⟩).1 :=
  connections_made_for_new_pair [] "J" ⟨"P", "C", "p1", "1"⟩
    (by intro kv hkv; simp [filter] at hkv)
    (by intro kv hkv; simp [filter] at hkv)

/-! ### Lemmas: the four find-outcomes of one `connections(add)` iteration -/

theorem conOne_eq_ss (cache : Cache) (g : String) (c : Cand) (kvp kvc : String × String)
    (hfp : (filter cache (c.provider ++ "/provider/" ++ c.profile ++
      "/connections/*/consumer")).find? (fun kv => kv.2 == c.consumer) = some kvp)
    (hfc : (filter cache (c.consumer ++ "/consumer/" ++ c.profile ++
      "/connections/*/provider")).find? (fun kv => kv.2 == c.provider) = some kvc) :
    connectionsOne cache g c = ([], false) := by
  dsimp only [connectionsOne]
  rw [hfp, hfc]
  rfl

theorem conOne_eq_sn (cache : Cache) (g : String) (c : Cand) (kvp : String × String)
    (hfp : (filter cache (c.provider ++ "/provider/" ++ c.profile ++
      "/connections/*/consumer")).find? (fun kv => kv.2 == c.consumer) = some kvp)
    (hfc : (filter cache (c.consumer ++ "/consumer/" ++ c.profile ++
      "/connections/*/provider")).find? (fun kv => kv.2 == c.provider) = Option.none) :
    connectionsOne cache g c =
      ((c.consumer ++ "/consumer/" ++ c.profile ++ "/connections/" ++
          jstr ((splitKey kvp.1).get? 9) ++ "/" ++ "provider", c.provider) ::
        (mergedDefaults cache c).map (fun nv =>
          (c.consumer ++ "/consumer/" ++ c.profile ++ "/connections/" ++
            jstr ((splitKey kvp.1).get? 9) ++ "/" ++ "properties/" ++ nv.1, nv.2)),
       false) := by
  dsimp only [connectionsOne]
  rw [hfp, hfc]
  rfl

theorem conOne_eq_ns (cache : Cache) (g : String) (c : Cand) (kvc : String × String)
    (hfp : (filter cache (c.provider ++ "/provider/" ++ c.profile ++
      "/connections/*/consumer")).find? (fun kv => kv.2 == c.consumer) = Option.none)
    (hfc : (filter cache (c.consumer ++ "/consumer/" ++ c.profile ++
      "/connections/*/provider")).find? (fun kv => kv.2 == c.provider) = some kvc) :
    connectionsOne cache g c =
      (((c.provider ++ "/provider/" ++ c.profile ++ "/connections/" ++
          jstr ((splitKey kvc.1).get? 9) ++ "/" ++ "consumer", c.consumer) ::
        (mergedDefaults cache c).map (fun nv =>
          (c.provider ++ "/provider/" ++ c.profile ++ "/connections/" ++
            jstr ((splitKey kvc.1).get? 9) ++ "/" ++ "properties/" ++ nv.1, nv.2))) ++ [],
       false) := by
  dsimp only [connectionsOne]
  rw [hfp, hfc]
  rfl

theorem conOne_eq_nn (cache : Cache) (g : String) (c : Cand)
    (hfp : (filter cache (c.provider ++ "/provider/" ++ c.profile ++
      "/connections/*/consumer")).find? (fun kv => kv.2 == c.consumer) = Option.none)
    (hfc : (filter cache (c.consumer ++ "/consumer/" ++ c.profile ++
      "/connections/*/provider")).find? (fun kv => kv.2 == c.provider) = Option.none) :
    connectionsOne cache g c =
      (((c.provider ++ "/provider/" ++ c.profile ++ "/connections/" ++ g ++ "/" ++
          "consumer", c.consumer) ::
        (mergedDefaults cache c).map (fun nv =>
          (c.provider ++ "/provider/" ++ c.profile ++ "/connections/" ++ g ++ "/" ++
            "properties/" ++ nv.1, nv.2))) ++
       ((c.consumer ++ "/consumer/" ++ c.profile ++ "/connections/" ++ g ++ "/" ++
          "provider", c.provider) ::
        (mergedDefaults cache c).map (fun nv =>
          (c.consumer ++ "/consumer/" ++ c.profile ++ "/connections/" ++ g ++ "/" ++
            "properties/" ++ nv.1, nv.2))),
       true) := by
  dsimp only [connectionsOne]
  rw [hfp, hfc]
  rfl

/-! ### Lemmas: keys of the merged defaults object -/

theorem mem_jsSet_inv (m : Cache) (k v : String) :
    ∀ nv ∈ jsSet m k v, nv.1 = k ∨ nv ∈ m := by
  intro nv hnv
  unfold jsSet at hnv
  by_cases h : m.any (fun kv => kv.1 == k) = true
  · rw [if_pos h] at hnv
    obtain ⟨kv, hkv, heq⟩ := List.mem_map.1 hnv
    by_cases hk : (kv.1 == k) = true
    · rw [if_pos hk] at heq
      left
      rw [← heq]
    · rw [if_neg hk] at heq
      right
      rw [← heq]
      exact hkv
  · rw [if_neg h] at hnv
    rcases List.mem_append.1 hnv with h1 | h1
    · right; exact h1
    · left
      rcases List.mem_cons.1 h1 with h2 | h2
      · rw [h2]
      · simp at h2

theorem foldl_jsSet_keys (P : String → Prop) (f : String × String → String) :
    ∀ (l : Cache), (∀ kv ∈ l, P (f kv)) →
      ∀ (init : Cache), (∀ nv ∈ init, P nv.1) →
      ∀ nv ∈ l.foldl (fun m kv => jsSet m (f kv) kv.2) init, P nv.1 := by
  intro l
  induction l with
  | nil => intro _ init hinit nv hnv; exact hinit nv hnv
  | cons kv rest ih =>
    intro hl init hinit nv hnv
    refine ih (fun x hx => hl x (List.mem_cons_of_mem _ hx)) (jsSet init (f kv) kv.2) ?_ nv hnv
    intro x hx
    rcases mem_jsSet_inv init (f kv) kv.2 x hx with h1 | h1
    · rw [h1]
      exact hl kv (List.mem_cons_self _ _)
    · exact hinit x h1

theorem mergedDefaults_key_sepfree (cache : Cache) (c : Cand) :
    ∀ nv ∈ mergedDefaults cache c, ∀ ch ∈ (nv.1 : String).data, ch ≠ '/' := by
  dsimp only [mergedDefaults]
  refine foldl_jsSet_keys (fun s => ∀ ch ∈ s.data, ch ≠ '/') (fun kv => nameAt9 kv.1) _
    (fun kv _ => jstrSeg_sepfree kv.1 9) _ ?_
  refine foldl_jsSet_keys (fun s => ∀ ch ∈ s.data, ch ≠ '/') (fun kv => nameAt9 kv.1) _
    (fun kv _ => jstrSeg_sepfree kv.1 9) [] ?_
  intro nv hnv
  simp at hnv

/-! ### Lemmas: segment counts and pattern matching of the written keys -/

theorem putp_link_len (c : Cand) (hc : goodCand c) (id : String)
    (hid : ∀ ch ∈ id.data, ch ≠ '/') :
    (splitKey (c.provider ++ "/provider/" ++ c.profile ++ "/connections/" ++ id ++ "/" ++
      "consumer")).length = 11 := by
  obtain ⟨⟨a, b, cc, ha, hb, hcc, hpe⟩, _, hprof⟩ := hc
  rw [hpe, splitKey_putp_link a b cc c.profile id (fun ch h => (ha ch h).1)
    (fun ch h => (hb ch h).1) (fun ch h => (hcc ch h).1) (fun ch h => (hprof ch h).1) hid]
  rfl

theorem putc_link_len (c : Cand) (hc : goodCand c) (id : String)
    (hid : ∀ ch ∈ id.data, ch ≠ '/') :
    (splitKey (c.consumer ++ "/consumer/" ++ c.profile ++ "/connections/" ++ id ++ "/" ++
      "provider")).length = 11 := by
  obtain ⟨_, ⟨a, b, cc, ha, hb, hcc, hce⟩, hprof⟩ := hc
  rw [hce, splitKey_putc_link a b cc c.profile id (fun ch h => (ha ch h).1)
    (fun ch h => (hb ch h).1) (fun ch h => (hcc ch h).1) (fun ch h => (hprof ch h).1) hid]
  rfl

theorem putp_props_len (c : Cand) (hc : goodCand c) (id name : String)
    (hid : ∀ ch ∈ id.data, ch ≠ '/') (hname : ∀ ch ∈ name.data, ch ≠ '/') :
    (splitKey (c.provider ++ "/provider/" ++ c.profile ++ "/connections/" ++ id ++ "/" ++
      "properties/" ++ name)).length = 12 := by
  obtain ⟨⟨a, b, cc, ha, hb, hcc, hpe⟩, _, hprof⟩ := hc
  rw [hpe, splitKey_putp_props a b cc c.profile id name (fun ch h => (ha ch h).1)
    (fun ch h => (hb ch h).1) (fun ch h => (hcc ch h).1) (fun ch h => (hprof ch h).1)
    hid hname]
  rfl

theorem putc_props_len (c : Cand) (hc : goodCand c) (id name : String)
    (hid : ∀ ch ∈ id.data, ch ≠ '/') (hname : ∀ ch ∈ name.data, ch ≠ '/') :
    (splitKey (c.consumer ++ "/consumer/" ++ c.profile ++ "/connections/" ++ id ++ "/" ++
      "properties/" ++ name)).length = 12 := by
  obtain ⟨_, ⟨a, b, cc, ha, hb, hcc, hce⟩, hprof⟩ := hc
  rw [hce, splitKey_putc_props a b cc c.profile id name (fun ch h => (ha ch h).1)
    (fun ch h => (hb ch h).1) (fun ch h => (hcc ch h).1) (fun ch h => (hprof ch h).1)
    hid hname]
  rfl

theorem compareKey_putp_link (c : Cand) (hc : goodCand c) (id : String)
    (hid : goodSeg id) :
    compareKey (c.provider ++ "/provider/" ++ c.profile ++ "/connections/" ++ id ++ "/" ++
        "consumer")
      (splitKey (c.provider ++ "/provider/" ++ c.profile ++ "/connections/*/consumer")) =
      true := by
  obtain ⟨⟨a, b, cc, ha, hb, hcc, hpe⟩, _, hprof⟩ := hc
  rw [hpe, splitKey_provpat a b cc c.profile (fun ch h => (ha ch h).1)
    (fun ch h => (hb ch h).1) (fun ch h => (hcc ch h).1) (fun ch h => (hprof ch h).1),
    compareKey_iff, splitKey_putp_link a b cc c.profile id (fun ch h => (ha ch h).1)
    (fun ch h => (hb ch h).1) (fun ch h => (hcc ch h).1) (fun ch h => (hprof ch h).1)
    (fun ch h => (hid ch h).1)]
  refine List.Forall₂.cons (jsmatch_self _) (List.Forall₂.cons (jsmatch_self _)
    (List.Forall₂.cons (jsmatch_self _) (List.Forall₂.cons (jsmatch_self _)
    (List.Forall₂.cons (jsmatch_self _) (List.Forall₂.cons (jsmatch_self _)
    (List.Forall₂.cons (jsmatch_self _) (List.Forall₂.cons (jsmatch_self _)
    (List.Forall₂.cons (jsmatch_self _) (List.Forall₂.cons ?_
    (List.Forall₂.cons (jsmatch_self _) List.Forall₂.nil))))))))))
  exact (jsmatch_star id).2 (fun ch h => (hid ch h).2)

theorem compareKey_putc_link (c : Cand) (hc : goodCand c) (id : String)
    (hid : goodSeg id) :
    compareKey (c.consumer ++ "/consumer/" ++ c.profile ++ "/connections/" ++ id ++ "/" ++
        "provider")
      (splitKey (c.consumer ++ "/consumer/" ++ c.profile ++ "/connections/*/provider")) =
      true := by
  obtain ⟨_, ⟨a, b, cc, ha, hb, hcc, hce⟩, hprof⟩ := hc
  rw [hce, splitKey_conspat a b cc c.profile (fun ch h => (ha ch h).1)
    (fun ch h => (hb ch h).1) (fun ch h => (hcc ch h).1) (fun ch h => (hprof ch h).1),
    compareKey_iff, splitKey_putc_link a b cc c.profile id (fun ch h => (ha ch h).1)
    (fun ch h => (hb ch h).1) (fun ch h => (hcc ch h).1) (fun ch h => (hprof ch h).1)
    (fun ch h => (hid ch h).1)]
  refine List.Forall₂.cons (jsmatch_self _) (List.Forall₂.cons (jsmatch_self _)
    (List.Forall₂.cons (jsmatch_self _) (List.Forall₂.cons (jsmatch_self _)
    (List.Forall₂.cons (jsmatch_self _) (List.Forall₂.cons (jsmatch_self _)
    (List.Forall₂.cons (jsmatch_self _) (List.Forall₂.cons (jsmatch_self _)
    (List.Forall₂.cons (jsmatch_self _) (List.Forall₂.cons ?_
    (List.Forall₂.cons (jsmatch_self _) List.Forall₂.nil))))))))))
  exact (jsmatch_star id).2 (fun ch h => (hid ch h).2)

theorem conOne_keylen (cache : Cache) (g : String) (c : Cand)
    (hg : ∀ ch ∈ g.data, ch ≠ '/') (hc : goodCand c) :
    ∀ kv ∈ (connectionsOne cache g c).1,
      (splitKey kv.1).length = 11 ∨ (splitKey kv.1).length = 12 := by
  intro kv hkv
  rcases hfp : (filter cache (c.provider ++ "/provider/" ++ c.profile ++
      "/connections/*/consumer")).find? (fun kv => kv.2 == c.consumer) with _ | kvp
  · rcases hfc : (filter cache (c.consumer ++ "/consumer/" ++ c.profile ++
        "/connections/*/provider")).find? (fun kv => kv.2 == c.provider) with _ | kvc
    · rw [conOne_eq_nn cache g c hfp hfc] at hkv
      rcases List.mem_append.1 hkv with h | h
      · rcases List.mem_cons.1 h with h1 | h1
        · subst h1
          exact Or.inl (putp_link_len c hc g hg)
        · obtain ⟨nv, hnv, heq⟩ := List.mem_map.1 h1
          subst heq
          exact Or.inr (putp_props_len c hc g nv.1 hg
            (mergedDefaults_key_sepfree cache c nv hnv))
      · rcases List.mem_cons.1 h with h1 | h1
        · subst h1
          exact Or.inl (putc_link_len c hc g hg)
        · obtain ⟨nv, hnv, heq⟩ := List.mem_map.1 h1
          subst heq
          exact Or.inr (putc_props_len c hc g nv.1 hg
            (mergedDefaults_key_sepfree cache c nv hnv))
    · rw [conOne_eq_ns cache g c kvc hfp hfc, List.append_nil] at hkv
      rcases List.mem_cons.1 hkv with h1 | h1
      · subst h1
        exact Or.inl (putp_link_len c hc _ (jstrSeg_sepfree kvc.1 9))
      · obtain ⟨nv, hnv, heq⟩ := List.mem_map.1 h1
        subst heq
        exact Or.inr (putp_props_len c hc _ nv.1 (jstrSeg_sepfree kvc.1 9)
          (mergedDefaults_key_sepfree cache c nv hnv))
  · rcases hfc : (filter cache (c.consumer ++ "/consumer/" ++ c.profile ++
        "/connections/*/provider")).find? (fun kv => kv.2 == c.provider) with _ | kvc
    · rw [conOne_eq_sn cache g c kvp hfp hfc] at hkv
      rcases List.mem_cons.1 hkv with h1 | h1
      · subst h1
        exact Or.inl (putc_link_len c hc _ (jstrSeg_sepfree kvp.1 9))
      · obtain ⟨nv, hnv, heq⟩ := List.mem_map.1 h1
        subst heq
        exact Or.inr (putc_props_len c hc _ nv.1 (jstrSeg_sepfree kvp.1 9)
          (mergedDefaults_key_sepfree cache c nv hnv))
    · rw [conOne_eq_ss cache g c kvp kvc hfp hfc] at hkv
      simp at hkv

theorem conOne_cover (cache : Cache) (g : String) (c : Cand)
    (hg : goodSeg g) (hkeys : goodKeys cache) :
    ∃ id, goodSeg id ∧
      ((∃ kv ∈ filter cache (c.provider ++ "/provider/" ++ c.profile ++
          "/connections/*/consumer"), kv.2 = c.consumer) ∨
        (c.provider ++ "/provider/" ++ c.profile ++ "/connections/" ++ id ++ "/" ++
          "consumer", c.consumer) ∈ (connectionsOne cache g c).1) ∧
      ((∃ kv ∈ filter cache (c.consumer ++ "/consumer/" ++ c.profile ++
          "/connections/*/provider"), kv.2 = c.provider) ∨
        (c.consumer ++ "/consumer/" ++ c.profile ++ "/connections/" ++ id ++ "/" ++
          "provider", c.provider) ∈ (connectionsOne cache g c).1) := by
  rcases hfp : (filter cache (c.provider ++ "/provider/" ++ c.profile ++
      "/connections/*/consumer")).find? (fun kv => kv.2 == c.consumer) with _ | kvp
  · rcases hfc : (filter cache (c.consumer ++ "/consumer/" ++ c.profile ++
        "/connections/*/provider")).find? (fun kv => kv.2 == c.provider) with _ | kvc
    · refine ⟨g, hg, Or.inr ?_, Or.inr ?_⟩
      · rw [conOne_eq_nn cache g c hfp hfc]
        exact List.mem_append_left _ (List.mem_cons_self _ _)
      · rw [conOne_eq_nn cache g c hfp hfc]
        exact List.mem_append_right _ (List.mem_cons_self _ _)
    · have hmemc : kvc ∈ cache :=
        ((mem_filter_iff _ _ _).1 (List.mem_of_find?_eq_some hfc)).1
      refine ⟨jstr ((splitKey kvc.1).get? 9), jstrSeg_good kvc.1 9 (hkeys kvc hmemc),
        Or.inr ?_, Or.inl ⟨kvc, List.mem_of_find?_eq_some hfc, ?_⟩⟩
      · rw [conOne_eq_ns cache g c kvc hfp hfc]
        exact List.mem_append_left _ (List.mem_cons_self _ _)
      · have h := List.find?_some hfc
        simpa using h
  · rcases hfc : (filter cache (c.consumer ++ "/consumer/" ++ c.profile ++
        "/connections/*/provider")).find? (fun kv => kv.2 == c.provider) with _ | kvc
    · have hmemp : kvp ∈ cache :=
        ((mem_filter_iff _ _ _).1 (List.mem_of_find?_eq_some hfp)).1
      refine ⟨jstr ((splitKey kvp.1).get? 9), jstrSeg_good kvp.1 9 (hkeys kvp hmemp),
        Or.inl ⟨kvp, List.mem_of_find?_eq_some hfp, ?_⟩, Or.inr ?_⟩
      · have h := List.find?_some hfp
        simpa using h
      · rw [conOne_eq_sn cache g c kvp hfp hfc]
        exact List.mem_cons_self _ _
    · refine ⟨g, hg, Or.inl ⟨kvp, List.mem_of_find?_eq_some hfp, ?_⟩,
        Or.inl ⟨kvc, List.mem_of_find?_eq_some hfc, ?_⟩⟩
      · have h := List.find?_some hfp
        simpa using h
      · have h := List.find?_some hfc
        simpa using h

/-! ### Lemmas: lifting through the candidate loop of `connections(add)` -/

theorem connectionsGo_cover (cache : Cache) (gen : Nat → String) :
    ∀ (add : List Cand) (n : Nat) (c : Cand), c ∈ add →
      ∃ m, ∀ x ∈ (connectionsOne cache (gen m) c).1, x ∈ connectionsGo cache gen n add := by
  intro add
  induction add with
  | nil => intro n c hc; simp at hc
  | cons d rest ih =>
    intro n c hc
    rcases List.mem_cons.1 hc with h | h
    · subst h
      refine ⟨n, fun x hx => ?_⟩
      dsimp only [connectionsGo]
      exact List.mem_append_left _ hx
    · obtain ⟨m, hm⟩ := ih (if (connectionsOne cache (gen n) d).2 then n + 1 else n) c h
      refine ⟨m, fun x hx => ?_⟩
      dsimp only [connectionsGo]
      exact List.mem_append_right _ (hm x hx)

theorem connectionsGo_keylen (cache : Cache) (gen : Nat → String)
    (Hgen : ∀ n, goodSeg (gen n)) :
    ∀ (add : List Cand), (∀ c ∈ add, goodCand c) → ∀ (n : Nat),
      ∀ kv ∈ connectionsGo cache gen n add,
        (splitKey kv.1).length = 11 ∨ (splitKey kv.1).length = 12 := by
  intro add
  induction add with
  | nil => intro _ n kv hkv; simp [connectionsGo] at hkv
  | cons d rest ih =>
    intro hadd n kv hkv
    dsimp only [connectionsGo] at hkv
    rcases List.mem_append.1 hkv with h | h
    · exact conOne_keylen cache (gen n) d (fun ch hch => (Hgen n ch hch).1)
        (hadd d (List.mem_cons_self _ _)) kv h
    · exact ih (fun c hc => hadd c (List.mem_cons_of_mem _ hc)) _ kv h

theorem connectionsGo_skip_all (cache₂ : Cache) (gen₂ : Nat → String) :
    ∀ (add : List Cand), (∀ c ∈ add, ∀ g, connectionsOne cache₂ g c = ([], false)) →
      ∀ (n : Nat), connectionsGo cache₂ gen₂ n add = [] := by
  intro add
  induction add with
  | nil => intro _ n; rfl
  | cons d rest ih =>
    intro h n
    dsimp only [connectionsGo]
    rw [h d (List.mem_cons_self _ _) (gen₂ n)]
    exact ih (fun c hc => h c (List.mem_cons_of_mem _ hc)) n

theorem buildPuts_of_cands (cache : Cache) (gen : Nat → String) (add : List Cand)
    (h : buildCands cache = some add) :
    buildPuts cache gen = connectionsGo cache gen 0 add := by
  unfold buildPuts
  rw [h]
  rfl

/-! ### Lemmas: every candidate a build emits is well shaped -/

theorem bysystem_shape (cache : Cache) (hkeys : goodKeys cache)
    (net prov prof ver scope : String) (hnet : goodSeg net)
    (hprov : endpointShape prov) (hprof : goodSeg prof) :
    ∀ cd ∈ bysystem cache net prov prof ver scope, goodCand cd := by
  intro cd hmem
  unfold bysystem at hmem
  obtain ⟨nkv, hnmem, hmem2⟩ := List.mem_flatMap.1 hmem
  obtain ⟨ckv, hcmem, hmem3⟩ := List.mem_flatMap.1 hmem2
  by_cases hctx : (((splitKey ckv.1).get? 5) == some scope) = true
  · rw [if_pos hctx] at hmem3
    obtain ⟨vkv, _, hveq⟩ := List.mem_filterMap.1 hmem3
    by_cases hvv : (vkv.2 == ver) = true
    · rw [if_pos hvv] at hveq
      have hcd : cd = ⟨prov,
          "cns/" ++ net ++ "/nodes/" ++ jstr ((splitKey nkv.1).get? 3) ++ "/contexts/" ++
            jstr ((splitKey ckv.1).get? 5), prof, ver⟩ :=
        (Option.some.injEq _ _ ▸ hveq).symm
      rw [hcd]
      refine ⟨hprov, ⟨net, jstr ((splitKey nkv.1).get? 3), jstr ((splitKey ckv.1).get? 5),
        hnet, ?_, ?_, rfl⟩, hprof⟩
      · exact jstrSeg_good nkv.1 3 (hkeys nkv ((mem_filter_iff _ _ _).1 hnmem).1)
      · exact jstrSeg_good ckv.1 5 (hkeys ckv ((mem_filter_iff _ _ _).1 hcmem).1)
    · rw [if_neg hvv] at hveq
      exact absurd hveq (by simp)
  · rw [if_neg hctx] at hmem3
    simp at hmem3

theorem allsystems_shape (cache : Cache) (hkeys : goodKeys cache)
    (prov prof ver scope : String) (hprov : endpointShape prov) (hprof : goodSeg prof) :
    ∀ cd ∈ allsystems cache prov prof ver scope, goodCand cd := by
  intro cd hmem
  unfold allsystems at hmem
  obtain ⟨kv, hkmem, hmem2⟩ := List.mem_flatMap.1 hmem
  exact bysystem_shape cache hkeys _ prov prof ver scope
    (jstrSeg_good kv.1 1 (hkeys kv ((mem_filter_iff _ _ _).1 hkmem).1)) hprov hprof cd hmem2

theorem consumers_shape (cache : Cache) (hkeys : goodKeys cache)
    (mode : Option String) (net node ctx prof ver : String)
    (hnet : goodSeg net) (hnode : goodSeg node) (hctx : goodSeg ctx)
    (hprof : goodSeg prof) :
    ∀ cd ∈ consumers cache mode net node ctx prof ver, goodCand cd := by
  intro cd hmem
  have hprov : endpointShape
      ("cns/" ++ net ++ "/nodes/" ++ node ++ "/contexts/" ++ ctx) :=
    ⟨net, node, ctx, hnet, hnode, hctx, rfl⟩
  dsimp only [consumers] at hmem
  split at hmem
  · exact allsystems_shape cache hkeys _ prof ver ctx hprov hprof cd hmem
  · exact bysystem_shape cache hkeys net _ prof ver ctx hnet hprov hprof cd hmem
  · exact absurd hmem (List.not_mem_nil cd)

theorem buildNet_shape (cache : Cache) (hkeys : goodKeys cache)
    (mode : Option String) (net : String) (hnet : goodSeg net) :
    ∀ cd ∈ buildNet cache mode net, goodCand cd := by
  intro cd hmem
  dsimp only [buildNet] at hmem
  obtain ⟨nkv, hnmem, hmem2⟩ := List.mem_flatMap.1 hmem
  obtain ⟨ckv, hcmem, hmem3⟩ := List.mem_flatMap.1 hmem2
  obtain ⟨pkv, hpmem, hmem4⟩ := List.mem_flatMap.1 hmem3
  exact consumers_shape cache hkeys mode net _ _ _ _ hnet
    (jstrSeg_good nkv.1 3 (hkeys nkv ((mem_filter_iff _ _ _).1 hnmem).1))
    (jstrSeg_good ckv.1 5 (hkeys ckv ((mem_filter_iff _ _ _).1 hcmem).1))
    (jstrSeg_good pkv.1 7 (hkeys pkv ((mem_filter_iff _ _ _).1 hpmem).1)) cd hmem4

theorem buildGo_shape (cache : Cache) (hkeys : goodKeys cache) :
    ∀ (l : Cache), (∀ kv ∈ l, kv ∈ cache) → ∀ (add : List Cand), buildGo cache l = some add →
      ∀ cd ∈ add, goodCand cd := by
  intro l
  induction l with
  | nil =>
    intro _ add h cd hcd
    have hadd : ([] : List Cand) = add := Option.some.inj h
    rw [← hadd] at hcd
    simp at hcd
  | cons kv rest ih =>
    intro hsub add h cd hcd
    dsimp only [buildGo] at h
    by_cases hv : isValidMode (lookup cache ("cns/" ++ jstr ((splitKey kv.1).get? 1) ++
        "/orchestrator")) = true
    · rw [if_pos hv] at h
      obtain ⟨r, hr, hadd⟩ := Option.map_eq_some'.1 h
      rw [← hadd] at hcd
      rcases List.mem_append.1 hcd with h1 | h1
      · exact buildNet_shape cache hkeys _ _
          (jstrSeg_good kv.1 1 (hkeys kv (hsub kv (List.mem_cons_self _ _)))) cd h1
      · exact ih (fun x hx => hsub x (List.mem_cons_of_mem _ hx)) r hr cd h1
    · rw [if_neg hv] at h
      exact absurd h (by simp)

theorem buildCands_shape (cache : Cache) (hkeys : goodKeys cache) (add : List Cand)
    (h : buildCands cache = some add) : ∀ cd ∈ add, goodCand cd :=
  buildGo_shape cache hkeys (filter cache "cns/*/name")
    (fun _ hkv => ((mem_filter_iff _ _ _).1 hkv).1) add h

/-! ### Lemmas: the matchmaker enumeration only reads keys of at most
ten segments, so it is stable under the writes of a build pass -/

theorem bysystem_stable (cache cache₂ : Cache)
    (HF : ∀ patS : String, (splitKey patS).length ≤ 10 →
      filter cache₂ patS = filter cache patS)
    (net prov prof ver scope : String)
    (hnet : ∀ ch ∈ net.data, ch ≠ '/') (hprof : ∀ ch ∈ prof.data, ch ≠ '/') :
    bysystem cache₂ net prov prof ver scope = bysystem cache net prov prof ver scope := by
  dsimp only [bysystem]
  rw [HF ("cns/" ++ net ++ "/nodes/*/name") (by rw [splitKey_pat5 net hnet]; simp)]
  refine flatMap_congr ?_
  intro nkv hnkv
  rw [HF ("cns/" ++ net ++ "/nodes/" ++ jstr ((splitKey nkv.1).get? 3) ++
      "/contexts/*/name")
    (by rw [splitKey_pat7 net _ hnet (jstrSeg_sepfree nkv.1 3)]; simp)]
  refine flatMap_congr ?_
  intro ckv hckv
  by_cases hsc : (((splitKey ckv.1).get? 5) == some scope) = true
  · rw [if_pos hsc, if_pos hsc,
      HF ("cns/" ++ net ++ "/nodes/" ++ jstr ((splitKey nkv.1).get? 3) ++ "/contexts/" ++
          jstr ((splitKey ckv.1).get? 5) ++ "/consumer/" ++ prof ++ "/version")
        (by rw [splitKey_cvpat net _ _ prof hnet (jstrSeg_sepfree nkv.1 3)
          (jstrSeg_sepfree ckv.1 5) hprof]; simp)]
  · rw [if_neg hsc, if_neg hsc]

theorem allsystems_stable (cache cache₂ : Cache)
    (HF : ∀ patS : String, (splitKey patS).length ≤ 10 →
      filter cache₂ patS = filter cache patS)
    (prov prof ver scope : String) (hprof : ∀ ch ∈ prof.data, ch ≠ '/') :
    allsystems cache₂ prov prof ver scope = allsystems cache prov prof ver scope := by
  dsimp only [allsystems]
  rw [HF "cns/*/name" (by simp [splitKey, splitChars])]
  refine flatMap_congr ?_
  intro kv hkv
  exact bysystem_stable cache cache₂ HF _ prov prof ver scope
    (jstrSeg_sepfree kv.1 1) hprof

theorem consumers_stable (cache cache₂ : Cache)
    (HF : ∀ patS : String, (splitKey patS).length ≤ 10 →
      filter cache₂ patS = filter cache patS)
    (mode : Option String) (net node ctx prof ver : String)
    (hnet : ∀ ch ∈ net.data, ch ≠ '/') (hprof : ∀ ch ∈ prof.data, ch ≠ '/') :
    consumers cache₂ mode net node ctx prof ver =
      consumers cache mode net node ctx prof ver := by
  dsimp only [consumers]
  split
  · exact allsystems_stable cache cache₂ HF _ prof ver ctx hprof
  · exact bysystem_stable cache cache₂ HF net _ prof ver ctx hnet hprof
  · rfl

theorem buildNet_stable (cache cache₂ : Cache)
    (HF : ∀ patS : String, (splitKey patS).length ≤ 10 →
      filter cache₂ patS = filter cache patS)
    (mode : Option String) (net : String) (hnet : ∀ ch ∈ net.data, ch ≠ '/') :
    buildNet cache₂ mode net = buildNet cache mode net := by
  dsimp only [buildNet]
  rw [HF ("cns/" ++ net ++ "/nodes/*/name") (by rw [splitKey_pat5 net hnet]; simp)]
  refine flatMap_congr ?_
  intro nkv hnkv
  rw [HF ("cns/" ++ net ++ "/nodes/" ++ jstr ((splitKey nkv.1).get? 3) ++
      "/contexts/*/name")
    (by rw [splitKey_pat7 net _ hnet (jstrSeg_sepfree nkv.1 3)]; simp)]
  refine flatMap_congr ?_
  intro ckv hckv
  rw [HF ("cns/" ++ net ++ "/nodes/" ++ jstr ((splitKey nkv.1).get? 3) ++ "/contexts/" ++
      jstr ((splitKey ckv.1).get? 5) ++ "/provider/*/version")
    (by rw [splitKey_pvpat net _ _ hnet (jstrSeg_sepfree nkv.1 3)
      (jstrSeg_sepfree ckv.1 5)]; simp)]
  refine flatMap_congr ?_
  intro pkv hpkv
  exact consumers_stable cache cache₂ HF mode net _ _ _ pkv.2 hnet
    (jstrSeg_sepfree pkv.1 7)

theorem buildGo_stable (cache cache₂ : Cache)
    (HF : ∀ patS : String, (splitKey patS).length ≤ 10 →
      filter cache₂ patS = filter cache patS)
    (HL : ∀ q : String, (splitKey q).length ≤ 10 → lookup cache₂ q = lookup cache q) :
    ∀ l : Cache, buildGo cache₂ l = buildGo cache l := by
  intro l
  induction l with
  | nil => rfl
  | cons kv rest ih =>
    dsimp only [buildGo]
    rw [HL ("cns/" ++ jstr ((splitKey kv.1).get? 1) ++ "/orchestrator")
      (by rw [splitKey_orch _ (jstrSeg_sepfree kv.1 1)]; simp)]
    by_cases hv : isValidMode (lookup cache ("cns/" ++ jstr ((splitKey kv.1).get? 1) ++
        "/orchestrator")) = true
    · rw [if_pos hv, if_pos hv, ih,
        buildNet_stable cache cache₂ HF _ _ (jstrSeg_sepfree kv.1 1)]
    · rw [if_neg hv, if_neg hv]

theorem buildCands_stable (cache cache₂ : Cache)
    (HF : ∀ patS : String, (splitKey patS).length ≤ 10 →
      filter cache₂ patS = filter cache patS)
    (HL : ∀ q : String, (splitKey q).length ≤ 10 → lookup cache₂ q = lookup cache q) :
    buildCands cache₂ = buildCands cache := by
  dsimp only [buildCands]
  rw [HF "cns/*/name" (by simp [splitKey, splitChars]), buildGo_stable cache cache₂ HF HL]

/-- Quiescence of a second build pass: when the first pass's writes are
self-consistent (no two writes put different values at one key) and do
not change any pre-existing entry's value, replaying them into the cache
makes the next `build()` pass write nothing. -/
theorem build_twice_quiet (cache : Cache) (gen gen₂ : Nat → String)
    (Hkeys : goodKeys cache) (Hgen : ∀ n, goodSeg (gen n))
    (CF1 : ∀ kv ∈ buildPuts cache gen, ∀ kv2 ∈ buildPuts cache gen,
      kv.1 = kv2.1 → kv.2 = kv2.2)
    (CF2 : ∀ kv ∈ buildPuts cache gen, ∀ e ∈ cache, e.1 = kv.1 → e.2 = kv.2) :
    buildPuts (applyPuts cache (buildPuts cache gen)) gen₂ = [] := by
  rcases h : buildCands cache with _ | add
  · have h1 : buildPuts cache gen = [] := by
      unfold buildPuts
      rw [h]
    rw [h1]
    show buildPuts cache gen₂ = []
    unfold buildPuts
    rw [h]
  · have hgood : ∀ cd ∈ add, goodCand cd := buildCands_shape cache Hkeys add h
    have hputs : buildPuts cache gen = connectionsGo cache gen 0 add :=
      buildPuts_of_cands cache gen add h
    have Hlen : ∀ kv ∈ buildPuts cache gen,
        (splitKey kv.1).length = 11 ∨ (splitKey kv.1).length = 12 := by
      rw [hputs]
      exact connectionsGo_keylen cache gen Hgen add hgood 0
    have HF : ∀ patS : String, (splitKey patS).length ≤ 10 →
        filter (applyPuts cache (buildPuts cache gen)) patS = filter cache patS := by
      intro patS hp
      refine filter_applyPuts_stable (buildPuts cache gen) cache patS ?_
      intro kv hkv
      refine compareKey_ne_lengths ?_
      rcases Hlen kv hkv with hl | hl <;> omega
    have HL : ∀ q : String, (splitKey q).length ≤ 10 →
        lookup (applyPuts cache (buildPuts cache gen)) q = lookup cache q := by
      intro q hq
      refine lookup_applyPuts_ne (buildPuts cache gen) cache q ?_
      intro kv hkv hkq
      have hle : (splitKey kv.1).length = (splitKey q).length := by rw [hkq]
      rcases Hlen kv hkv with hl | hl <;> omega
    have hstab : buildCands (applyPuts cache (buildPuts cache gen)) = some add := by
      rw [buildCands_stable cache _ HF HL, h]
    rw [buildPuts_of_cands _ gen₂ add hstab]
    refine connectionsGo_skip_all _ gen₂ add ?_ 0
    intro c hc gx
    obtain ⟨m, hsubm⟩ := connectionsGo_cover cache gen add 0 c hc
    obtain ⟨id, hid, hp, hcn⟩ := conOne_cover cache (gen m) c (Hgen m) Hkeys
    refine connectionsOne_skip _ gx c ?_ ?_
    · rcases hp with ⟨kv, hkvf, hkvv⟩ | hput
      · obtain ⟨hkvc, hkvcmp⟩ := (mem_filter_iff _ _ _).1 hkvf
        refine ⟨kv, (mem_filter_iff _ _ _).2 ⟨?_, hkvcmp⟩, hkvv⟩
        refine mem_applyPuts_preserved (buildPuts cache gen) cache kv.1 kv.2 hkvc ?_
        intro p hp2 hpk
        exact (CF2 p hp2 kv hkvc hpk.symm).symm
      · have hmem1 : (c.provider ++ "/provider/" ++ c.profile ++ "/connections/" ++ id ++
            "/" ++ "consumer", c.consumer) ∈ buildPuts cache gen := by
          rw [hputs]
          exact hsubm _ hput
        refine ⟨_, (mem_filter_iff _ _ _).2
          ⟨mem_applyPuts_of_put (buildPuts cache gen) cache _ _ hmem1 CF1, ?_⟩, rfl⟩
        exact compareKey_putp_link c (hgood c hc) id hid
    · rcases hcn with ⟨kv, hkvf, hkvv⟩ | hput
      · obtain ⟨hkvc, hkvcmp⟩ := (mem_filter_iff _ _ _).1 hkvf
        refine ⟨kv, (mem_filter_iff _ _ _).2 ⟨?_, hkvcmp⟩, hkvv⟩
        refine mem_applyPuts_preserved (buildPuts cache gen) cache kv.1 kv.2 hkvc ?_
        intro p hp2 hpk
        exact (CF2 p hp2 kv hkvc hpk.symm).symm
      · have hmem1 : (c.consumer ++ "/consumer/" ++ c.profile ++ "/connections/" ++ id ++
            "/" ++ "provider", c.provider) ∈ buildPuts cache gen := by
          rw [hputs]
          exact hsubm _ hput
        refine ⟨_, (mem_filter_iff _ _ _).2
          ⟨mem_applyPuts_of_put (buildPuts cache gen) cache _ _ hmem1 CF1, ?_⟩, rfl⟩
        exact compareKey_putc_link c (hgood c hc) id hid

/-! ### Claim C6 -/

/-- Claim C6, counterexample to the original second half: on the store
`cacheDupIds`, whose two consumer endpoints hold pre-existing connection
records with the same id pointing at one provider, the first `build()`
pass writes twice to the same provider-side key with different values,
and a second pass over the updated cache writes again — and each of its
writes changes the stored value, so it is not even a re-write of an
identical value. -/
theorem build_twice_writes_again :
    buildPuts (applyPuts cacheDupIds (buildPuts cacheDupIds genStub)) genStub ≠ [] ∧
    ∀ kv ∈ buildPuts (applyPuts cacheDupIds (buildPuts cacheDupIds genStub)) genStub,
      lookup (applyPuts cacheDupIds (buildPuts cacheDupIds genStub)) kv.1 ≠ some kv.2 := by
  decide

/-- Claim C6 (amended): first, for every candidate for which the cache
already contains a provider-side connection record whose value equals
the candidate's consumer prefix and a consumer-side record whose value
equals the candidate's provider prefix, `connections()` issues no store
writes for that candidate.  Second, for a cache whose keys are free of
line terminators and ids free of `/` and line terminators, if the first
run's writes are consistent — no two of them put different values at one
key, and none changes a pre-existing entry's value — then running
`build()` twice, the second over a cache reflecting the first run's
writes with no external mutations, produces no additional writes. -/
theorem connections_idempotent :
    (∀ (cache : Cache) (g : String) (c : Cand),
      (∃ kv ∈ filter cache (c.provider ++ "/provider/" ++ c.profile ++
        "/connections/*/consumer"), kv.2 = c.consumer) →
      (∃ kv ∈ filter cache (c.consumer ++ "/consumer/" ++ c.profile ++
        "/connections/*/provider"), kv.2 = c.provider) →
      connectionsOne cache g c = ([], false)) ∧
    (∀ (cache : Cache) (gen gen₂ : Nat → String),
      goodKeys cache → (∀ n, goodSeg (gen n)) →
      (∀ kv ∈ buildPuts cache gen, ∀ kv2 ∈ buildPuts cache gen,
        kv.1 = kv2.1 → kv.2 = kv2.2) →
      (∀ kv ∈ buildPuts cache gen, ∀ e ∈ cache, e.1 = kv.1 → e.2 = kv.2) →
      buildPuts (applyPuts cache (buildPuts cache gen)) gen₂ = []) :=
  ⟨fun cache g c h1 h2 => connectionsOne_skip cache g c h1 h2,
   fun cache gen gen₂ Hkeys Hgen CF1 CF2 =>
     build_twice_quiet cache gen gen₂ Hkeys Hgen CF1 CF2⟩

end CNSOrch
